import Mathlib

/-!
Verification of the KernelFlow scheduling core: a shallow embedding of the
hazard-detecting validator (`simulation`), the greedy list scheduler
(`computeAutoSchedule`), the placement export/replay helpers
(`exportPlacements` / `applyPlacements`), and the roofline metrics
(`MetricsPanel` calculations), translated from the TypeScript source
(`App.tsx`, `constants.ts`, `src/lib/backend.ts`,
`components/MetricsPanel.tsx`, `types.ts`).

Conventions of the embedding:
- JS numbers holding cycle counts / indices are modelled as `Int`
  (the sentinel `-1` means "unplaced"); unit counts and latencies as `Nat`;
  the real-valued roofline quantities as `Rat`.
- JS `Array.prototype.sort` (stable) is modelled by the stable
  `List.insertionSort`: a stable sort by a fixed total key is a unique
  function of its input, so any stable implementation is the same function.
- The JS `Map` used by the scheduler is modelled as an association list
  where insertion prepends (so lookup of the first match sees the most
  recent `set`, matching `Map.set`/`Map.get`).
-/

namespace KernelFlow

/-- Instruction operation kinds, from `types.ts` (`InstructionType`). -/
inductive IType where
  | LOAD | STORE | ADD | MUL | FMA | NOOP
deriving DecidableEq

/-- Execution-unit kinds, from `types.ts` (`'ALU' | 'MEM'`). -/
inductive UnitKind where
  | ALU | MEM
deriving DecidableEq

def IType.str : IType → String
  | .LOAD => "LOAD"
  | .STORE => "STORE"
  | .ADD => "ADD"
  | .MUL => "MUL"
  | .FMA => "FMA"
  | .NOOP => "NOOP"

def UnitKind.str : UnitKind → String
  | .ALU => "ALU"
  | .MEM => "MEM"

/-- Static per-operation configuration, from `types.ts` (`InstructionConfig`);
the `color`/`description` display strings are omitted (never read by the core). -/
structure InstructionConfig where
  latency : Nat
  unit : UnitKind
deriving DecidableEq

/-- The static spec table `INSTRUCTION_SPECS` from `constants.ts`. -/
def INSTRUCTION_SPECS : IType → InstructionConfig
  | .LOAD => { latency := 3, unit := .MEM }
  | .STORE => { latency := 1, unit := .MEM }
  | .ADD => { latency := 1, unit := .ALU }
  | .MUL => { latency := 2, unit := .ALU }
  | .FMA => { latency := 3, unit := .ALU }
  | .NOOP => { latency := 1, unit := .ALU }

/-- An instruction with its placement state, from `types.ts`
(`GameInstruction`): `cycle = -1` / `unitIndex = -1` mean unplaced. -/
structure GameInstruction where
  id : String
  type : IType
  cycle : Int
  unitIndex : Int
  dependencies : List String
  varName : String
deriving DecidableEq

/-- One entry of a level's `units` array, from `types.ts`
(`{ type: 'ALU' | 'MEM', count: number }`). -/
structure UnitEntry where
  type : UnitKind
  count : Nat
deriving DecidableEq

/-- The parts of a `Level` consumed by the scheduling core
(`units` for both engines, `instructions` as the template). -/
structure Level where
  units : List UnitEntry
  instructions : List GameInstruction
deriving DecidableEq

/-- Hazard kinds, from `types.ts` (`'RAW' | 'STRUCTURAL' | 'UNIT' | 'WAW'`). -/
inductive HazardType where
  | RAW | STRUCTURAL | UNIT | WAW
deriving DecidableEq

/-- A hazard record, from `types.ts` (`Hazard`). -/
structure Hazard where
  cycle : Int
  reason : String
  instructionId : String
  type : HazardType
deriving DecidableEq

/-- The validator's output, from `types.ts` (`SimulationResult`). -/
structure SimulationResult where
  valid : Bool
  totalCycles : Int
  hazards : List Hazard
  registerUsage : Nat
  score : Int
deriving DecidableEq

/-- JS array indexing `units[idx]` with an `Int` index: negative or
out-of-range indices yield `undefined` (`none`). -/
def unitAt (units : List UnitEntry) (idx : Int) : Option UnitEntry :=
  if 0 ≤ idx then units.get? idx.toNat else none

/-- The unit-compatibility check of the validator (`App.tsx` step 1):
emits a `UNIT` hazard when the indexed unit exists and its kind differs
from the instruction's required kind. -/
def unitHazards (level : Level) (inst : GameInstruction) : List Hazard :=
  match unitAt level.units inst.unitIndex with
  | some u =>
    if u.type ≠ (INSTRUCTION_SPECS inst.type).unit then
      [{ cycle := inst.cycle
         reason := "Unit Mismatch: " ++ inst.type.str ++ " needs "
           ++ (INSTRUCTION_SPECS inst.type).unit.str
         instructionId := inst.id
         type := HazardType.UNIT }]
    else []
  | none => []

/-- The dependency check of the validator for a single dependency id
(`App.tsx` step 2): a missing id is skipped, an unplaced dependency or a
ready-time violation emits a `RAW` hazard. -/
def depHazards (instructions : List GameInstruction) (inst : GameInstruction)
    (depId : String) : List Hazard :=
  match instructions.find? (fun i => i.id == depId) with
  | none => []
  | some depInst =>
    if depInst.cycle < 0 then
      [{ cycle := inst.cycle
         reason := "Stalled on unplaced " ++ depInst.varName ++ " (ID:" ++ depId ++ ")"
         instructionId := inst.id
         type := HazardType.RAW }]
    else
      if inst.cycle < depInst.cycle + ((INSTRUCTION_SPECS depInst.type).latency : Int) then
        [{ cycle := inst.cycle
           reason := "RAW Hazard: " ++ inst.varName ++ " needs " ++ depInst.varName
             ++ " (Ready at "
             ++ toString (depInst.cycle + ((INSTRUCTION_SPECS depInst.type).latency : Int))
             ++ ")"
           instructionId := inst.id
           type := HazardType.RAW }]
      else []

/-- The structural check of the validator (`App.tsx` step 3): a hazard when
some other placed instruction shares the same `unitIndex` and the same exact
start cycle. -/
def structuralHazards (placed : List GameInstruction) (inst : GameInstruction) : List Hazard :=
  match placed.find? (fun other =>
      !(other.id == inst.id) && other.unitIndex == inst.unitIndex
        && other.cycle == inst.cycle) with
  | some _ =>
    [{ cycle := inst.cycle
       reason := "Structural Hazard: Unit contention at cycle " ++ toString inst.cycle
       instructionId := inst.id
       type := HazardType.STRUCTURAL }]
  | none => []

/-- All hazards the validator's per-instruction loop body pushes for one
placed instruction, in push order. -/
def instHazards (instructions : List GameInstruction) (level : Level)
    (placed : List GameInstruction) (inst : GameInstruction) : List Hazard :=
  unitHazards level inst
    ++ inst.dependencies.flatMap (depHazards instructions inst)
    ++ structuralHazards placed inst

/-- The validator's working list: placed instructions (`cycle >= 0`) sorted by
ascending start cycle. JS `Array.prototype.sort` with comparator
`a.cycle - b.cycle` is exactly the stable ascending sort by `cycle`, and a
stable sort by a fixed total key is a unique function of its input, so the
stable `List.insertionSort` is a faithful model of it. -/
def placedSorted (instructions : List GameInstruction) : List GameInstruction :=
  List.insertionSort (fun a b => a.cycle ≤ b.cycle)
    (instructions.filter (fun i => decide (0 ≤ i.cycle)))

/-- The hazard list accumulated by the validator's main loop, in push order. -/
def simHazards (instructions : List GameInstruction) (level : Level) : List Hazard :=
  (placedSorted instructions).flatMap
    (instHazards instructions level (placedSorted instructions))

/-- The `maxCycle` accumulator of the validator's main loop: the running max of
`startCycle + latency` over the placed instructions, starting at 0. -/
def simMaxCycle (instructions : List GameInstruction) : Int :=
  (placedSorted instructions).foldl
    (fun m i => max m (i.cycle + ((INSTRUCTION_SPECS i.type).latency : Int))) 0

/-- `instructions.every(i => i.cycle >= 0)`. -/
def allPlaced (instructions : List GameInstruction) : Bool :=
  instructions.all (fun i => decide (0 ≤ i.cycle))

/-- The validator: the `simulation` `useMemo` of `App.tsx` (lines 109-185),
a pure function of the instruction list (with placements) and the level.
The single loop of the source computing hazards and `maxCycle` together is
split into `simHazards` and `simMaxCycle` over the same placed list. -/
def simulation (instructions : List GameInstruction) (level : Level) : SimulationResult :=
  let placed := placedSorted instructions
  if placed.length = 0 then
    { valid := false, totalCycles := 0, hazards := [], registerUsage := 0, score := 0 }
  else
    let hazards := simHazards instructions level
    let maxCycle := simMaxCycle instructions
    let hasHazards := decide (hazards.length > 0)
    { valid := allPlaced instructions && !hasHazards
      totalCycles := maxCycle
      hazards := hazards
      registerUsage := 0
      score := if allPlaced instructions && !hasHazards
               then max 0 (1000 - maxCycle * 10) else 0 }

/-- The scheduler's placement map (`placementMap : Map<string, {cycle, endCycle}>`),
as an association list where `set` prepends and `get` takes the first match. -/
def Pmap := List (String × Nat × Nat)

def pmapHas (m : List (String × Nat × Nat)) (key : String) : Bool :=
  m.any (fun e => e.1 == key)

def pmapGet (m : List (String × Nat × Nat)) (key : String) : Option (Nat × Nat) :=
  (m.find? (fun e => e.1 == key)).map (fun e => e.2)

/-- `inst.dependencies.every(depId => placementMap.has(depId))`. -/
def isReady (m : List (String × Nat × Nat)) (inst : GameInstruction) : Bool :=
  inst.dependencies.all (fun d => pmapHas m d)

/-- `earliestCycle`: the running max of dependency end cycles, starting at 0
(`App.tsx` lines 50-54). -/
def earliestCycle (m : List (String × Nat × Nat)) (inst : GameInstruction) : Nat :=
  inst.dependencies.foldl (fun acc d =>
    match pmapGet m d with
    | some p => max acc p.2
    | none => acc) 0

/-- `validUnitIndices`: indices of the level's unit entries whose kind matches
(`App.tsx` lines 56-59). -/
def validUnitIndices (units : List UnitEntry) (k : UnitKind) : List Nat :=
  ((units.enum.filter (fun p => p.2.type == k)).map (fun p => p.1))

/-- `scheduled.some(s => s.unitIndex === uIdx && s.cycle === c)`. -/
def slotOccupied (scheduled : List GameInstruction) (u : Nat) (c : Nat) : Bool :=
  scheduled.any (fun s => s.unitIndex == (u : Int) && s.cycle == (c : Int))

/-- The bounded slot search of the scheduler (`App.tsx` lines 63-78):
cycles `earliest, earliest+1, ...` up to 50 cycles, unit indices in order,
first free `(cycle, unitIndex)` pair wins. -/
def findSlot (scheduled : List GameInstruction) (valid : List Nat) (earliest : Nat) :
    Option (Nat × Nat) :=
  (List.range 50).findSome? (fun off =>
    (valid.find? (fun u => !(slotOccupied scheduled u (earliest + off)))).map
      (fun u => (earliest + off, u)))

/-- The scheduler's loop state: unplaced instructions, committed placements
(in placement order), and the placement map. -/
structure SchedState where
  remaining : List GameInstruction
  scheduled : List GameInstruction
  pmap : List (String × Nat × Nat)
deriving DecidableEq

/-- The body of the scheduler's candidate loop for one candidate
(`App.tsx` lines 48-79): find a slot and commit, or leave the state alone. -/
def tryPlace (level : Level) (st : SchedState) (inst : GameInstruction) : SchedState :=
  if (validUnitIndices level.units (INSTRUCTION_SPECS inst.type).unit).isEmpty then st
  else
    match findSlot st.scheduled
        (validUnitIndices level.units (INSTRUCTION_SPECS inst.type).unit)
        (earliestCycle st.pmap inst) with
    | none => st
    | some (c, u) =>
      { remaining := st.remaining.filter (fun r => !(r.id == inst.id))
        scheduled := st.scheduled ++ [{ inst with cycle := (c : Int), unitIndex := (u : Int) }]
        pmap := (inst.id, c, c + (INSTRUCTION_SPECS inst.type).latency) :: st.pmap }

/-- The scheduler's outer `while` loop (`App.tsx` lines 40-80), with the
`safeGuard < 1000` cap modelled as fuel: stop on empty `remaining`, empty
candidate set, or exhausted fuel. -/
def scheduleLoop (level : Level) : Nat → SchedState → SchedState
  | 0, st => st
  | Nat.succ fuel, st =>
    if st.remaining.isEmpty then st
    else
      if (st.remaining.filter (fun inst => isReady st.pmap inst)).isEmpty then st
      else scheduleLoop level fuel
        ((st.remaining.filter (fun inst => isReady st.pmap inst)).foldl (tryPlace level) st)

/-- The per-instruction reset `i.cycle = -1; i.unitIndex = -1` applied to the
scheduler's deep copy (`App.tsx` line 33). -/
def resetInstruction (i : GameInstruction) : GameInstruction :=
  { i with cycle := -1, unitIndex := -1 }

/-- The greedy auto-scheduler `computeAutoSchedule` (`App.tsx` lines 28-82):
returns the list of committed placements in placement order. -/
def computeAutoSchedule (levelInsts : List GameInstruction) (level : Level) :
    List GameInstruction :=
  let insts := levelInsts.map resetInstruction
  (scheduleLoop level 1000 { remaining := insts, scheduled := [], pmap := [] }).scheduled

/-- `handleAutoSchedule`'s merge of the scheduler output back into the board
state (`App.tsx` lines 239-248). -/
def mergeSchedule (prev scheduled : List GameInstruction) : List GameInstruction :=
  if scheduled.length > 0 then
    prev.map (fun p =>
      match scheduled.find? (fun x => x.id == p.id) with
      | some s => s
      | none => p)
  else prev

/-- One exported placement record, from `exportPlacements` in
`src/lib/backend.ts`. -/
structure PlacementEntry where
  instructionId : String
  type : IType
  cycle : Int
  unitIndex : Int
deriving DecidableEq

/-- `exportPlacements` (`src/lib/backend.ts` lines 30-41): keep only fully
placed instructions (`cycle >= 0 && unitIndex >= 0`), project the placement
fields. The surrounding `{ placements }` wrapper is modelled as the bare list. -/
def exportPlacements (instructions : List GameInstruction) : List PlacementEntry :=
  (instructions.filter (fun i => decide (0 ≤ i.cycle) && decide (0 ≤ i.unitIndex))).map
    (fun i => { instructionId := i.id, type := i.type, cycle := i.cycle, unitIndex := i.unitIndex })

/-- The replay application of `handleReplayRun` (`constants.ts` embedded App,
lines 440-452): restore the matching placement, unplace everything absent
from the export. -/
def applyPlacements (prev : List GameInstruction) (placements : List PlacementEntry) :
    List GameInstruction :=
  prev.map (fun inst =>
    match placements.find? (fun p => p.instructionId == inst.id) with
    | some m => { inst with cycle := m.cycle, unitIndex := m.unitIndex }
    | none => { inst with cycle := -1, unitIndex := -1 })

/-- A freshly reset copy of an instruction set (the deep copy + reset used by
`handleReset` and level initialization). -/
def resetAll (instructions : List GameInstruction) : List GameInstruction :=
  instructions.map resetInstruction

/-- `totalFlops` (`MetricsPanel.tsx`): ADD/MUL add 1, FMA adds 2, others 0. -/
def totalFlops (instructions : List GameInstruction) : Nat :=
  instructions.foldl (fun acc i =>
    if i.type = IType.ADD ∨ i.type = IType.MUL then acc + 1
    else if i.type = IType.FMA then acc + 2
    else acc) 0

/-- `totalMemOps` (`MetricsPanel.tsx`): LOAD/STORE add 1, others 0. -/
def totalMemOps (instructions : List GameInstruction) : Nat :=
  instructions.foldl (fun acc i =>
    if i.type = IType.LOAD ∨ i.type = IType.STORE then acc + 1
    else acc) 0

/-- `numALUs` (`MetricsPanel.tsx`): summed `count` over ALU unit entries. -/
def numALUs (units : List UnitEntry) : Nat :=
  (units.filter (fun u => u.type == UnitKind.ALU)).foldl (fun s u => s + u.count) 0

/-- `numMEMs` (`MetricsPanel.tsx`): summed `count` over MEM unit entries. -/
def numMEMs (units : List UnitEntry) : Nat :=
  (units.filter (fun u => u.type == UnitKind.MEM)).foldl (fun s u => s + u.count) 0

def peakCompute (units : List UnitEntry) : Nat := numALUs units

def peakMemBW (units : List UnitEntry) : Nat := numMEMs units

/-- `operationalIntensity = totalMemOps > 0 ? totalFlops / totalMemOps : 0`. -/
def operationalIntensity (instructions : List GameInstruction) : Rat :=
  if totalMemOps instructions > 0 then
    (totalFlops instructions : Rat) / (totalMemOps instructions : Rat)
  else 0

/-- `memBoundLimit = peakMemBW * operationalIntensity`. -/
def memBoundLimit (instructions : List GameInstruction) (units : List UnitEntry) : Rat :=
  (peakMemBW units : Rat) * operationalIntensity instructions

/-- `rooflineLimit = Math.min(peakCompute, memBoundLimit)`. -/
def rooflineLimit (instructions : List GameInstruction) (units : List UnitEntry) : Rat :=
  min (peakCompute units : Rat) (memBoundLimit instructions units)

/-- `isMemBound = memBoundLimit < peakCompute`. -/
def isMemBound (instructions : List GameInstruction) (units : List UnitEntry) : Bool :=
  decide (memBoundLimit instructions units < (peakCompute units : Rat))

/-- `currentCycles = simulation.totalCycles > 0 ? simulation.totalCycles : 0`. -/
def currentCycles (r : SimulationResult) : Int :=
  if r.totalCycles > 0 then r.totalCycles else 0

/-- `validCycles = currentCycles > 0 ? currentCycles : 1`. -/
def validCycles (r : SimulationResult) : Int :=
  if currentCycles r > 0 then currentCycles r else 1

/-- `achievedPerf = simulation.valid ? totalFlops / validCycles : 0`. -/
def achievedPerf (instructions : List GameInstruction) (r : SimulationResult) : Rat :=
  if r.valid then (totalFlops instructions : Rat) / (validCycles r : Rat) else 0

/-- The `Vector Add` level (`level-1` of `constants.ts`): 1 MEM unit entry,
1 ALU unit entry; two independent LOADs feeding an ADD feeding a STORE. -/
def level1 : Level :=
  { units := [{ type := UnitKind.MEM, count := 1 }, { type := UnitKind.ALU, count := 1 }]
    instructions :=
      [ { id := "1", type := IType.LOAD, cycle := -1, unitIndex := -1, dependencies := [], varName := "rA" }
      , { id := "2", type := IType.LOAD, cycle := -1, unitIndex := -1, dependencies := [], varName := "rB" }
      , { id := "3", type := IType.ADD, cycle := -1, unitIndex := -1, dependencies := ["1", "2"], varName := "rRes" }
      , { id := "4", type := IType.STORE, cycle := -1, unitIndex := -1, dependencies := ["3"], varName := "MEM" } ] }

/-- The auto-scheduled and merged board state for `level1` (the path taken by
level initialization / `handleAutoSchedule`). -/
def level1Auto : List GameInstruction :=
  mergeSchedule level1.instructions (computeAutoSchedule level1.instructions level1)

/-- The per-operation flop weight named by the spec (ADD/MUL 1, FMA 2,
others 0), used to characterize `totalFlops`. -/
def flopWeight : IType → Nat
  | .ADD => 1
  | .MUL => 1
  | .FMA => 2
  | _ => 0

/-- A topological rank witnessing that `level1`'s dependency graph is acyclic. -/
def level1Rank : String → Nat
  | "3" => 1
  | "4" => 2
  | _ => 0

/-- A level with no units and no instructions (degenerate "feasible" input). -/
def emptyLevel : Level := { units := [], instructions := [] }

/-- An unplaced LOAD (spec Scenario B). -/
def c4Load : GameInstruction :=
  { id := "1", type := IType.LOAD, cycle := -1, unitIndex := -1, dependencies := [], varName := "rA" }

/-- An ADD placed at cycle 0 on the ALU whose single dependency is the
unplaced LOAD (spec Scenario B). -/
def c4Add : GameInstruction :=
  { id := "2", type := IType.ADD, cycle := 0, unitIndex := 1, dependencies := ["1"], varName := "rB" }

/-- Board state of spec Scenario B: one unplaced LOAD, one placed consumer. -/
def c4Insts : List GameInstruction := [c4Load, c4Add]

def c4Level : Level :=
  { units := [{ type := UnitKind.MEM, count := 1 }, { type := UnitKind.ALU, count := 1 }]
    instructions := c4Insts }

/-- Two latency-3 LOADs on the same memory unit with offset start cycles 0 and
1: their occupancy intervals [0,3) and [1,4) overlap, but start cycles differ. -/
def c5OverlapInsts : List GameInstruction :=
  [ { id := "1", type := IType.LOAD, cycle := 0, unitIndex := 0, dependencies := [], varName := "rA" }
  , { id := "2", type := IType.LOAD, cycle := 1, unitIndex := 0, dependencies := [], varName := "rB" } ]

def c5Level : Level :=
  { units := [{ type := UnitKind.MEM, count := 1 }], instructions := c5OverlapInsts }

def c5First : GameInstruction :=
  { id := "1", type := IType.LOAD, cycle := 0, unitIndex := 0, dependencies := [], varName := "rA" }

def c5Second : GameInstruction :=
  { id := "2", type := IType.LOAD, cycle := 0, unitIndex := 0, dependencies := [], varName := "rB" }

/-- Two placed instructions sharing the same `unitIndex` and the same start
cycle (spec Scenario C). -/
def c5ContendInsts : List GameInstruction := [c5First, c5Second]

/-- A two-instruction dependency cycle (malformed level input). -/
def cyclicInsts : List GameInstruction :=
  [ { id := "a", type := IType.ADD, cycle := -1, unitIndex := -1, dependencies := ["b"], varName := "x" }
  , { id := "b", type := IType.ADD, cycle := -1, unitIndex := -1, dependencies := ["a"], varName := "y" } ]

def c6Level : Level :=
  { units := [{ type := UnitKind.ALU, count := 1 }], instructions := cyclicInsts }

/-- Unit inventory of spec Scenario E: 1 Memory entry, one Compute entry of
count 2 (2 compute units in total). -/
def c9Units : List UnitEntry :=
  [{ type := UnitKind.MEM, count := 1 }, { type := UnitKind.ALU, count := 2 }]

/-- A kernel with `totalFlops = 4` (2 ADD + 2 MUL) and `totalMemOps = 4`
(2 LOAD + 2 STORE), as in spec Scenario E. -/
def c9Insts : List GameInstruction :=
  [ { id := "1", type := IType.LOAD, cycle := -1, unitIndex := -1, dependencies := [], varName := "a" }
  , { id := "2", type := IType.LOAD, cycle := -1, unitIndex := -1, dependencies := [], varName := "b" }
  , { id := "3", type := IType.ADD, cycle := -1, unitIndex := -1, dependencies := [], varName := "c" }
  , { id := "4", type := IType.MUL, cycle := -1, unitIndex := -1, dependencies := [], varName := "d" }
  , { id := "5", type := IType.ADD, cycle := -1, unitIndex := -1, dependencies := [], varName := "e" }
  , { id := "6", type := IType.MUL, cycle := -1, unitIndex := -1, dependencies := [], varName := "f" }
  , { id := "7", type := IType.STORE, cycle := -1, unitIndex := -1, dependencies := [], varName := "g" }
  , { id := "8", type := IType.STORE, cycle := -1, unitIndex := -1, dependencies := [], varName := "h" } ]

def c9Level : Level := { units := c9Units, instructions := c9Insts }

/-- A single ADD placed at cycle 0 with `unitIndex = 7`, far past the end of a
one-entry unit list: the validator's unit lookup yields `undefined`. -/
def c10Add : GameInstruction :=
  { id := "1", type := IType.ADD, cycle := 0, unitIndex := 7, dependencies := [], varName := "x" }

def c10Insts : List GameInstruction := [c10Add]

def c10Level : Level :=
  { units := [{ type := UnitKind.MEM, count := 1 }], instructions := c10Insts }

/-- The loop invariant of the greedy scheduler, over a fixed source list `S`
(the reset instruction list) and level: bookkeeping between `remaining`,
`scheduled` and `pmap`, plus the legality facts about every committed
placement that make the validator accept the final schedule. -/
structure SchedInv (S : List GameInstruction) (level : Level) (st : SchedState) : Prop where
  rem_sub : st.remaining.Sublist S
  sched_src : ∀ s ∈ st.scheduled, ∃ i ∈ S, s.id = i.id ∧ s.type = i.type ∧
    s.dependencies = i.dependencies ∧ s.varName = i.varName
  covered : ∀ i ∈ S, i ∈ st.remaining ∨ ∃ s ∈ st.scheduled, s.id = i.id
  not_both : ∀ r ∈ st.remaining, ∀ s ∈ st.scheduled, ¬ s.id = r.id
  sched_nodup : (st.scheduled.map (fun s => s.id)).Nodup
  pmap_keys : ∀ key, pmapHas st.pmap key = true ↔ ∃ s ∈ st.scheduled, s.id = key
  pmap_val : ∀ s ∈ st.scheduled, ∃ c : Nat, s.cycle = (c : Int) ∧
    pmapGet st.pmap s.id = some (c, c + (INSTRUCTION_SPECS s.type).latency)
  sched_unit : ∀ s ∈ st.scheduled, ∃ e, unitAt level.units s.unitIndex = some e ∧
    e.type = (INSTRUCTION_SPECS s.type).unit
  sched_pairs : st.scheduled.Pairwise
    (fun a b => ¬(a.unitIndex = b.unitIndex ∧ a.cycle = b.cycle))
  sched_deps : ∀ s ∈ st.scheduled, ∀ d ∈ s.dependencies, ∃ t ∈ st.scheduled,
    t.id = d ∧ t.cycle + ((INSTRUCTION_SPECS t.type).latency : Int) ≤ s.cycle
  len_eq : st.remaining.length + st.scheduled.length = S.length

/-! ### General helper lemmas -/

theorem latency_pos (t : IType) : 1 ≤ (INSTRUCTION_SPECS t).latency := by
  cases t <;> decide

theorem mem_placedSorted {instructions : List GameInstruction} {x : GameInstruction} :
    x ∈ placedSorted instructions ↔ x ∈ instructions ∧ 0 ≤ x.cycle := by
  unfold placedSorted
  rw [List.mem_insertionSort, List.mem_filter, decide_eq_true_eq]

theorem placedSorted_ne_nil {instructions : List GameInstruction} {x : GameInstruction}
    (hx : x ∈ instructions) (hc : 0 ≤ x.cycle) : placedSorted instructions ≠ [] := by
  intro h
  have : x ∈ placedSorted instructions := mem_placedSorted.mpr ⟨hx, hc⟩
  rw [h] at this
  exact List.not_mem_nil x this

theorem simulation_of_placed_nil {instructions : List GameInstruction} {level : Level}
    (h : placedSorted instructions = []) :
    simulation instructions level =
      { valid := false, totalCycles := 0, hazards := [], registerUsage := 0, score := 0 } := by
  unfold simulation
  rw [h]
  rfl

theorem simulation_of_placed_ne_nil {instructions : List GameInstruction} {level : Level}
    (h : placedSorted instructions ≠ []) :
    simulation instructions level =
      { valid := allPlaced instructions && !(decide ((simHazards instructions level).length > 0))
        totalCycles := simMaxCycle instructions
        hazards := simHazards instructions level
        registerUsage := 0
        score := if allPlaced instructions && !(decide ((simHazards instructions level).length > 0))
                 then max 0 (1000 - simMaxCycle instructions * 10) else 0 } := by
  unfold simulation
  rw [if_neg (by simpa using h)]

theorem simulation_valid_eq {instructions : List GameInstruction} {level : Level}
    (h : placedSorted instructions ≠ []) :
    (simulation instructions level).valid
      = (allPlaced instructions
          && !(decide ((simHazards instructions level).length > 0))) := by
  rw [simulation_of_placed_ne_nil h]

theorem foldl_max_init {α} (f : α → Int) :
    ∀ (l : List α) (init : Int), init ≤ l.foldl (fun m i => max m (f i)) init
  | [], _ => le_refl _
  | a :: l, init =>
    le_trans (le_max_left init (f a)) (foldl_max_init f l (max init (f a)))

theorem foldl_max_le_of_mem {α} (f : α → Int) :
    ∀ (l : List α) (init : Int) (x : α), x ∈ l →
      f x ≤ l.foldl (fun m i => max m (f i)) init := by
  intro l
  induction l with
  | nil => intro _ x hx; exact absurd hx (List.not_mem_nil x)
  | cons a l ih =>
    intro init x hx
    rcases List.mem_cons.mp hx with rfl | hx
    · exact le_trans (le_max_right init (f x)) (foldl_max_init f l (max init (f x)))
    · exact ih (max init (f a)) x hx

theorem foldl_max_cases {α} (f : α → Int) :
    ∀ (l : List α) (init : Int),
      l.foldl (fun m i => max m (f i)) init = init ∨
        ∃ x ∈ l, l.foldl (fun m i => max m (f i)) init = f x := by
  intro l
  induction l with
  | nil => intro init; exact Or.inl rfl
  | cons a l ih =>
    intro init
    rcases ih (max init (f a)) with h | ⟨x, hx, h⟩
    · rcases max_choice init (f a) with hm | hm
      · exact Or.inl (by rw [List.foldl_cons, h, hm])
      · exact Or.inr ⟨a, List.mem_cons_self a l, by rw [List.foldl_cons, h, hm]⟩
    · exact Or.inr ⟨x, List.mem_cons_of_mem a hx, by rw [List.foldl_cons, h]⟩

theorem simMaxCycle_nonneg (instructions : List GameInstruction) :
    0 ≤ simMaxCycle instructions :=
  foldl_max_init _ _ 0

theorem simulation_totalCycles_nonneg (instructions : List GameInstruction) (level : Level) :
    0 ≤ (simulation instructions level).totalCycles := by
  by_cases h : placedSorted instructions = []
  · rw [simulation_of_placed_nil h]
  · rw [simulation_of_placed_ne_nil h]
    exact simMaxCycle_nonneg instructions

theorem mem_simHazards_of_mem {instructions : List GameInstruction} {level : Level}
    {inst : GameInstruction} {h : Hazard}
    (hi : inst ∈ instructions) (hc : 0 ≤ inst.cycle)
    (hmem : h ∈ instHazards instructions level (placedSorted instructions) inst) :
    h ∈ (simulation instructions level).hazards := by
  have hne : placedSorted instructions ≠ [] := placedSorted_ne_nil hi hc
  rw [simulation_of_placed_ne_nil hne]
  exact List.mem_flatMap_of_mem (mem_placedSorted.mpr ⟨hi, hc⟩) hmem

/-! ### Claim theorems -/

/-- C1, counterexample: on the Vector Add level (one memory unit entry, one
compute unit entry, two latency-3 LOADs feeding an ADD feeding a STORE), the
validator applied to the auto-scheduled placement does NOT return
`totalCycles = 8`: the occupancy check is start-cycle-only, so the second
LOAD starts at cycle 1 and the kernel finishes in 6 cycles. -/
theorem C1_counterexample :
    ¬ ((simulation level1Auto level1).totalCycles = 8) := by decide

/-- C1 (amended): the auto-scheduler on the Vector Add level places the two
LOADs at distinct start cycles on the single memory unit (index 0), and the
validator on the resulting placement returns `totalCycles = 6` and
`valid = true`. -/
theorem C1_level1_auto_schedule :
    (∃ a ∈ computeAutoSchedule level1.instructions level1,
      ∃ b ∈ computeAutoSchedule level1.instructions level1,
        a.id = "1" ∧ b.id = "2" ∧ a.unitIndex = 0 ∧ b.unitIndex = 0 ∧ ¬ a.cycle = b.cycle)
    ∧ (simulation level1Auto level1).totalCycles = 6
    ∧ (simulation level1Auto level1).valid = true := by decide

/-- C7: the validator and the auto-scheduler are pure functions of their
inputs in this embedding, so two runs on identical instruction lists and
levels return identical results. -/
theorem C7_determinism (instructions : List GameInstruction) (level : Level) :
    simulation instructions level = simulation instructions level ∧
    computeAutoSchedule instructions level = computeAutoSchedule instructions level :=
  ⟨rfl, rfl⟩

theorem placedSorted_eq_nil {instructions : List GameInstruction}
    (h : ∀ i ∈ instructions, i.cycle < 0) : placedSorted instructions = [] := by
  unfold placedSorted
  have : instructions.filter (fun i => decide (0 ≤ i.cycle)) = [] := by
    rw [List.filter_eq_nil_iff]
    intro a ha
    simpa using Int.not_le.mpr (h a ha)
  rw [this]
  rfl

theorem unitHazards_mem {level : Level} {i : GameInstruction} {h : Hazard}
    (hm : h ∈ unitHazards level i) :
    h.instructionId = i.id ∧ h.type = HazardType.UNIT ∧
      0 ≤ i.unitIndex ∧ i.unitIndex < (level.units.length : Int) := by
  unfold unitHazards at hm
  split at hm
  next u hu =>
    have hrange : 0 ≤ i.unitIndex ∧ i.unitIndex < (level.units.length : Int) := by
      unfold unitAt at hu
      by_cases hge : 0 ≤ i.unitIndex
      · rw [if_pos hge] at hu
        rcases List.get?_eq_some.mp hu with ⟨hl, _⟩
        omega
      · rw [if_neg hge] at hu
        exact absurd hu (by simp)
    split at hm
    · rcases List.mem_singleton.mp hm with rfl
      exact ⟨rfl, rfl, hrange.1, hrange.2⟩
    · exact absurd hm (List.not_mem_nil h)
  next hu => exact absurd hm (List.not_mem_nil h)

theorem depHazards_mem {instructions : List GameInstruction} {i : GameInstruction}
    {depId : String} {h : Hazard} (hm : h ∈ depHazards instructions i depId) :
    h.instructionId = i.id ∧ h.type = HazardType.RAW := by
  unfold depHazards at hm
  split at hm
  next hf => exact absurd hm (List.not_mem_nil h)
  next depInst hf =>
    split at hm
    · rcases List.mem_singleton.mp hm with rfl; exact ⟨rfl, rfl⟩
    · split at hm
      · rcases List.mem_singleton.mp hm with rfl; exact ⟨rfl, rfl⟩
      · exact absurd hm (List.not_mem_nil h)

theorem structuralHazards_mem {placed : List GameInstruction} {i : GameInstruction}
    {h : Hazard} (hm : h ∈ structuralHazards placed i) :
    h.instructionId = i.id ∧ h.type = HazardType.STRUCTURAL ∧
      ∃ other ∈ placed, ¬ other.id = i.id ∧ other.unitIndex = i.unitIndex ∧
        other.cycle = i.cycle := by
  unfold structuralHazards at hm
  split at hm
  next o hf =>
    rcases List.mem_singleton.mp hm with rfl
    have ho := List.find?_some hf
    have homem := List.mem_of_find?_eq_some hf
    simp only [Bool.and_eq_true, Bool.not_eq_true', beq_iff_eq, beq_eq_false_iff_ne] at ho
    exact ⟨rfl, rfl, o, homem, ho.1.1, ho.1.2, ho.2⟩
  next hf => exact absurd hm (List.not_mem_nil h)

theorem structuralHazards_of_contention {placed : List GameInstruction}
    {a b : GameInstruction} (hb : b ∈ placed) (hid : ¬ b.id = a.id)
    (hu : b.unitIndex = a.unitIndex) (hc : b.cycle = a.cycle) :
    ∃ h ∈ structuralHazards placed a,
      h.instructionId = a.id ∧ h.type = HazardType.STRUCTURAL := by
  unfold structuralHazards
  rcases hf : placed.find? (fun other =>
      !(other.id == a.id) && other.unitIndex == a.unitIndex
        && other.cycle == a.cycle) with _ | o
  · exfalso
    have := List.find?_eq_none.mp hf b hb
    simp only [Bool.and_eq_true, Bool.not_eq_true', beq_iff_eq, beq_eq_false_iff_ne] at this
    exact this ⟨⟨hid, hu⟩, hc⟩
  · rw [hf]
    exact ⟨_, List.mem_singleton.mpr rfl, rfl, rfl⟩

/-- C3, counterexample: with zero instructions, "every instruction is placed"
holds vacuously and the hazard list is empty, yet the validator returns
`valid = false`, so the claimed equivalence fails on the empty input. -/
theorem C3_counterexample :
    ¬ (((simulation [] level1).valid = true) ↔
       ((∀ i ∈ ([] : List GameInstruction), 0 ≤ i.cycle) ∧
         (simulation [] level1).hazards = [])) := by decide

/-- C3 (amended): for every instruction set and level, restricted to nonempty
instruction sets for the validity equivalence: `valid = true` iff every
instruction is placed and the hazard list is empty; `totalCycles` is the max
of `startCycle + latency` over placed instructions (0 with none placed);
`score = max 0 (1000 - 10*totalCycles)` when valid and 0 otherwise; and with
zero placed instructions the result is exactly
`{valid := false, totalCycles := 0, hazards := [], score := 0}`. -/
theorem C3_validator_result_shape (instructions : List GameInstruction) (level : Level)
    (r : SimulationResult) (hr : r = simulation instructions level) :
    (instructions ≠ [] →
      (r.valid = true ↔ ((∀ i ∈ instructions, 0 ≤ i.cycle) ∧ r.hazards = [])))
    ∧ (∀ i ∈ instructions, 0 ≤ i.cycle →
        i.cycle + ((INSTRUCTION_SPECS i.type).latency : Int) ≤ r.totalCycles)
    ∧ ((∃ i ∈ instructions, 0 ≤ i.cycle) →
        ∃ i ∈ instructions, 0 ≤ i.cycle ∧
          r.totalCycles = i.cycle + ((INSTRUCTION_SPECS i.type).latency : Int))
    ∧ (r.valid = true → r.score = max 0 (1000 - 10 * r.totalCycles))
    ∧ (r.valid = false → r.score = 0)
    ∧ ((∀ i ∈ instructions, i.cycle < 0) →
        r = { valid := false, totalCycles := 0, hazards := [], registerUsage := 0,
              score := 0 }) := by
  subst hr
  by_cases hp : placedSorted instructions = []
  · have hnone : ∀ i ∈ instructions, i.cycle < 0 := by
      intro i hi
      by_contra hc
      exact placedSorted_ne_nil hi (Int.not_lt.mp hc) hp
    rw [simulation_of_placed_nil hp]
    refine ⟨?_, ?_, ?_, ?_, fun _ => rfl, fun _ => rfl⟩
    · intro hne
      rcases List.exists_mem_of_ne_nil instructions hne with ⟨a, ha⟩
      exact iff_of_false (by simp) (fun hall =>
        absurd (hall.1 a ha) (Int.not_le.mpr (hnone a ha)))
    · intro i hi hc
      exact absurd hc (Int.not_le.mpr (hnone i hi))
    · rintro ⟨i, hi, hc⟩
      exact absurd hc (Int.not_le.mpr (hnone i hi))
    · intro h
      exact absurd h (by simp)
  · rw [simulation_of_placed_ne_nil hp]
    refine ⟨?_, ?_, ?_, ?_, ?_, ?_⟩
    · intro _
      simp only [Bool.and_eq_true, Bool.not_eq_true', decide_eq_false_iff_not]
      constructor
      · rintro ⟨hall, hhaz⟩
        refine ⟨?_, ?_⟩
        · intro i hi
          have := List.all_eq_true.mp hall i hi
          simpa using this
        · exact List.length_eq_zero.mp (by omega)
      · rintro ⟨hall, hhaz⟩
        refine ⟨List.all_eq_true.mpr (fun i hi => by simpa using hall i hi), ?_⟩
        rw [hhaz]
        simp
    · intro i hi hc
      exact foldl_max_le_of_mem _ _ 0 i (mem_placedSorted.mpr ⟨hi, hc⟩)
    · rintro ⟨i, hi, hc⟩
      rcases foldl_max_cases
          (fun x : GameInstruction => x.cycle + ((INSTRUCTION_SPECS x.type).latency : Int))
          (placedSorted instructions) 0 with h0 | ⟨x, hx, hxe⟩
      · exfalso
        have hle := foldl_max_le_of_mem
          (fun x : GameInstruction => x.cycle + ((INSTRUCTION_SPECS x.type).latency : Int))
          (placedSorted instructions) 0 i (mem_placedSorted.mpr ⟨hi, hc⟩)
        rw [h0] at hle
        have hle2 : i.cycle + ((INSTRUCTION_SPECS i.type).latency : Int) ≤ 0 := hle
        have := latency_pos i.type
        omega
      · rcases mem_placedSorted.mp hx with ⟨hxi, hxc⟩
        exact ⟨x, hxi, hxc, hxe⟩
    · intro hv
      simp only at hv ⊢
      rw [if_pos hv]
      ring_nf
    · intro hv
      simp only at hv ⊢
      rw [if_neg (by rw [hv]; exact Bool.false_ne_true)]
    · intro h
      exact absurd (placedSorted_eq_nil h) hp

/-- C4: the validator's per-dependency behavior: a present-but-unplaced
dependency of a placed consumer yields a RAW hazard for the consumer; a
placed dependency whose end cycle exceeds the consumer's start cycle yields a
RAW hazard; a dependency id absent from the instruction set contributes no
hazard; and the concrete Scenario B board (one placed ADD with one unplaced
LOAD dependency) yields exactly one RAW hazard and `valid = false`. -/
theorem C4_raw_dependency_hazards :
    (∀ (instructions : List GameInstruction) (level : Level)
       (inst depInst : GameInstruction) (depId : String),
       inst ∈ instructions → 0 ≤ inst.cycle → depId ∈ inst.dependencies →
       instructions.find? (fun i => i.id == depId) = some depInst →
       depInst.cycle < 0 →
       ∃ h ∈ (simulation instructions level).hazards,
         h.instructionId = inst.id ∧ h.type = HazardType.RAW)
    ∧ (∀ (instructions : List GameInstruction) (level : Level)
       (inst depInst : GameInstruction) (depId : String),
       inst ∈ instructions → 0 ≤ inst.cycle → depId ∈ inst.dependencies →
       instructions.find? (fun i => i.id == depId) = some depInst →
       0 ≤ depInst.cycle →
       inst.cycle < depInst.cycle + ((INSTRUCTION_SPECS depInst.type).latency : Int) →
       ∃ h ∈ (simulation instructions level).hazards,
         h.instructionId = inst.id ∧ h.type = HazardType.RAW)
    ∧ (∀ (instructions : List GameInstruction) (inst : GameInstruction) (depId : String),
       instructions.find? (fun i => i.id == depId) = none →
       depHazards instructions inst depId = [])
    ∧ (simulation c4Insts c4Level).hazards =
        [{ cycle := 0, reason := "Stalled on unplaced rA (ID:1)", instructionId := "2",
           type := HazardType.RAW }]
    ∧ (simulation c4Insts c4Level).valid = false := by
  refine ⟨?_, ?_, ?_, by decide, by decide⟩
  · intro instructions level inst depInst depId hi hc hdep hfind hunplaced
    have hd : ∃ h ∈ depHazards instructions inst depId,
        h.instructionId = inst.id ∧ h.type = HazardType.RAW := by
      unfold depHazards
      simp only [hfind]
      rw [if_pos hunplaced]
      exact ⟨_, List.mem_singleton.mpr rfl, rfl, rfl⟩
    rcases hd with ⟨h, hhm, hid, hty⟩
    exact ⟨h, mem_simHazards_of_mem hi hc
      (List.mem_append_left _
        (List.mem_append_right _ (List.mem_flatMap_of_mem hdep hhm))), hid, hty⟩
  · intro instructions level inst depInst depId hi hc hdep hfind hplaced hlt
    have hd : ∃ h ∈ depHazards instructions inst depId,
        h.instructionId = inst.id ∧ h.type = HazardType.RAW := by
      unfold depHazards
      simp only [hfind]
      rw [if_neg (Int.not_lt.mpr hplaced), if_pos hlt]
      exact ⟨_, List.mem_singleton.mpr rfl, rfl, rfl⟩
    rcases hd with ⟨h, hhm, hid, hty⟩
    exact ⟨h, mem_simHazards_of_mem hi hc
      (List.mem_append_left _
        (List.mem_append_right _ (List.mem_flatMap_of_mem hdep hhm))), hid, hty⟩
  · intro instructions inst depId hfind
    unfold depHazards
    rw [hfind]

/-- C5: the validator's structural check compares start cycles only: two
distinct placed instructions sharing a `unitIndex` and the same start cycle
yield a STRUCTURAL hazard for at least one of them; every STRUCTURAL hazard
arises from another placed instruction with the same `unitIndex` and the same
exact start cycle; and the concrete board with two latency-3 LOADs at offset
cycles 0 and 1 on the same unit (overlapping occupancy intervals) validates
with no hazards. -/
theorem C5_structural_start_cycle_only :
    (∀ (instructions : List GameInstruction) (level : Level) (a b : GameInstruction),
       a ∈ instructions → b ∈ instructions → 0 ≤ a.cycle → 0 ≤ b.cycle →
       ¬ a.id = b.id → a.unitIndex = b.unitIndex → a.cycle = b.cycle →
       ∃ h ∈ (simulation instructions level).hazards,
         h.type = HazardType.STRUCTURAL ∧
           (h.instructionId = a.id ∨ h.instructionId = b.id))
    ∧ (∀ (instructions : List GameInstruction) (level : Level) (h : Hazard),
       h ∈ (simulation instructions level).hazards → h.type = HazardType.STRUCTURAL →
       ∃ a b : GameInstruction, a ∈ instructions ∧ b ∈ instructions ∧
         0 ≤ a.cycle ∧ 0 ≤ b.cycle ∧ h.instructionId = a.id ∧
         ¬ b.id = a.id ∧ b.unitIndex = a.unitIndex ∧ b.cycle = a.cycle)
    ∧ (simulation c5OverlapInsts c5Level).valid = true
    ∧ (simulation c5OverlapInsts c5Level).hazards = []
    ∧ (∃ h ∈ (simulation c5ContendInsts c5Level).hazards,
        h.type = HazardType.STRUCTURAL) := by
  refine ⟨?_, ?_, by decide, by decide, by decide⟩
  · intro instructions level a b ha hb hac hbc hid hu hc
    have hbmem : b ∈ placedSorted instructions := mem_placedSorted.mpr ⟨hb, hbc⟩
    rcases @structuralHazards_of_contention (placedSorted instructions) a b hbmem
      (fun e => hid e.symm) hu.symm hc.symm with ⟨h, hhm, hid2, hty⟩
    exact ⟨h, mem_simHazards_of_mem ha hac (List.mem_append_right _ hhm),
      hty, Or.inl hid2⟩
  · intro instructions level h hmem htype
    by_cases hp : placedSorted instructions = []
    · rw [simulation_of_placed_nil hp] at hmem
      exact absurd hmem (List.not_mem_nil h)
    · rw [simulation_of_placed_ne_nil hp] at hmem
      simp only at hmem
      rcases List.mem_flatMap.mp hmem with ⟨inst, hinst, hins⟩
      rcases mem_placedSorted.mp hinst with ⟨hii, hic⟩
      rcases List.mem_append.mp hins with hseg | hseg
      · rcases List.mem_append.mp hseg with hseg2 | hseg2
        · rcases unitHazards_mem hseg2 with ⟨_, ht, _⟩
          rw [htype] at ht
          exact absurd ht (by decide)
        · rcases List.mem_flatMap.mp hseg2 with ⟨depId, _, hdh⟩
          rcases depHazards_mem hdh with ⟨_, ht⟩
          rw [htype] at ht
          exact absurd ht (by decide)
      · rcases structuralHazards_mem hseg with ⟨hid, _, other, homem, hoid, hou, hoc⟩
        rcases mem_placedSorted.mp homem with ⟨hoi, hocyc⟩
        exact ⟨inst, other, hii, hoi, hic, hocyc, hid, hoid, hou, hoc⟩

/-- C10: a placed instruction whose `unitIndex` does not index into the unit
list (negative or past the end) is skipped by the unit-kind check: its
`unitHazards` is empty, every UNIT hazard comes from an instruction with an
in-range `unitIndex`, and the concrete board with an ADD placed at
`unitIndex = 7` over a one-entry unit list validates with no hazards. -/
theorem C10_out_of_range_unit_skipped :
    (∀ (level : Level) (inst : GameInstruction),
       inst.unitIndex < 0 ∨ (level.units.length : Int) ≤ inst.unitIndex →
       unitHazards level inst = [])
    ∧ (∀ (instructions : List GameInstruction) (level : Level) (h : Hazard),
       h ∈ (simulation instructions level).hazards → h.type = HazardType.UNIT →
       ∃ a ∈ instructions, 0 ≤ a.cycle ∧ h.instructionId = a.id ∧
         0 ≤ a.unitIndex ∧ a.unitIndex < (level.units.length : Int))
    ∧ (simulation c10Insts c10Level).valid = true
    ∧ (simulation c10Insts c10Level).hazards = [] := by
  refine ⟨?_, ?_, by decide, by decide⟩
  · intro level inst hrange
    have hnone : unitAt level.units inst.unitIndex = none := by
      unfold unitAt
      rcases hrange with hneg | hbig
      · rw [if_neg (Int.not_le.mpr hneg)]
      · rw [if_pos (by omega)]
        exact List.get?_eq_none.mpr (by omega)
    unfold unitHazards
    rw [hnone]
  · intro instructions level h hmem htype
    by_cases hp : placedSorted instructions = []
    · rw [simulation_of_placed_nil hp] at hmem
      exact absurd hmem (List.not_mem_nil h)
    · rw [simulation_of_placed_ne_nil hp] at hmem
      simp only at hmem
      rcases List.mem_flatMap.mp hmem with ⟨inst, hinst, hins⟩
      rcases mem_placedSorted.mp hinst with ⟨hii, hic⟩
      rcases List.mem_append.mp hins with hseg | hseg
      · rcases List.mem_append.mp hseg with hseg2 | hseg2
        · rcases unitHazards_mem hseg2 with ⟨hid, _, hge, hlt⟩
          exact ⟨inst, hii, hic, hid, hge, hlt⟩
        · rcases List.mem_flatMap.mp hseg2 with ⟨depId, _, hdh⟩
          rcases depHazards_mem hdh with ⟨_, ht⟩
          rw [htype] at ht
          exact absurd ht (by decide)
      · rcases structuralHazards_mem hseg with ⟨_, ht, _⟩
        rw [htype] at ht
        exact absurd ht (by decide)

/-! ### Roofline metric lemmas -/

theorem totalFlops_eq_sum (instructions : List GameInstruction) :
    totalFlops instructions = (instructions.map (fun i => flopWeight i.type)).sum := by
  unfold totalFlops
  suffices h : ∀ (l : List GameInstruction) (acc : Nat),
      l.foldl (fun acc i =>
        if i.type = IType.ADD ∨ i.type = IType.MUL then acc + 1
        else if i.type = IType.FMA then acc + 2 else acc) acc
        = acc + (l.map (fun i => flopWeight i.type)).sum by
    simpa using h instructions 0
  intro l
  induction l with
  | nil => intro acc; simp
  | cons i l ih =>
    intro acc
    have hstep : (if i.type = IType.ADD ∨ i.type = IType.MUL then acc + 1
        else if i.type = IType.FMA then acc + 2 else acc) = acc + flopWeight i.type := by
      cases htype : i.type <;> simp [flopWeight, htype]
    rw [List.foldl_cons, hstep, List.map_cons, List.sum_cons, ih]
    omega

theorem totalMemOps_eq_length (instructions : List GameInstruction) :
    totalMemOps instructions =
      (instructions.filter (fun i =>
        decide (i.type = IType.LOAD ∨ i.type = IType.STORE))).length := by
  unfold totalMemOps
  suffices h : ∀ (l : List GameInstruction) (acc : Nat),
      l.foldl (fun acc i =>
        if i.type = IType.LOAD ∨ i.type = IType.STORE then acc + 1 else acc) acc
        = acc + (l.filter (fun i =>
            decide (i.type = IType.LOAD ∨ i.type = IType.STORE))).length by
    simpa using h instructions 0
  intro l
  induction l with
  | nil => intro acc; simp
  | cons i l ih =>
    intro acc
    by_cases hmem : i.type = IType.LOAD ∨ i.type = IType.STORE
    · rw [List.foldl_cons, if_pos hmem, ih,
        List.filter_cons_of_pos (by simpa using hmem), List.length_cons]
      omega
    · rw [List.foldl_cons, if_neg hmem, ih,
        List.filter_cons_of_neg (by simpa using hmem)]

theorem foldl_add_count :
    ∀ (l : List UnitEntry) (acc : Nat),
      l.foldl (fun s u => s + u.count) acc = acc + (l.map (fun u => u.count)).sum
  | [], acc => by simp
  | u :: l, acc => by
    rw [List.foldl_cons, foldl_add_count l (acc + u.count), List.map_cons, List.sum_cons]
    omega

theorem validCycles_eq_max {r : SimulationResult} (h : 0 ≤ r.totalCycles) :
    validCycles r = max r.totalCycles 1 := by
  simp only [validCycles, currentCycles]
  split_ifs <;> omega

/-- C9: the roofline metrics: `totalFlops` sums the flop weights (ADD/MUL 1,
FMA 2, others 0); `totalMemOps` counts LOAD/STORE instructions; the peaks sum
the `count` fields of ALU-kind resp. MEM-kind unit entries; operational
intensity is flops/memops with a divide-by-zero guard; the roofline limit is
`min(peakCompute, peakMemBW * intensity)`; memory-bound iff
`memBoundLimit < peakCompute`; achieved performance is
`totalFlops / max(totalCycles, 1)` when the schedule is valid and 0 otherwise;
and spec Scenario E's concrete instance evaluates as claimed. -/
theorem C9_roofline_metrics (instructions : List GameInstruction) (level : Level) :
    totalFlops instructions = (instructions.map (fun i => flopWeight i.type)).sum
    ∧ totalMemOps instructions =
        (instructions.filter (fun i =>
          decide (i.type = IType.LOAD ∨ i.type = IType.STORE))).length
    ∧ peakCompute level.units =
        ((level.units.filter (fun u => u.type == UnitKind.ALU)).map (fun u => u.count)).sum
    ∧ peakMemBW level.units =
        ((level.units.filter (fun u => u.type == UnitKind.MEM)).map (fun u => u.count)).sum
    ∧ (totalMemOps instructions = 0 → operationalIntensity instructions = 0)
    ∧ (totalMemOps instructions ≠ 0 →
        operationalIntensity instructions =
          (totalFlops instructions : Rat) / (totalMemOps instructions : Rat))
    ∧ rooflineLimit instructions level.units =
        min (peakCompute level.units : Rat)
          ((peakMemBW level.units : Rat) * operationalIntensity instructions)
    ∧ (isMemBound instructions level.units = true ↔
        memBoundLimit instructions level.units < (peakCompute level.units : Rat))
    ∧ ((simulation instructions level).valid = true →
        achievedPerf instructions (simulation instructions level) =
          (totalFlops instructions : Rat)
            / ((max (simulation instructions level).totalCycles 1 : Int) : Rat))
    ∧ ((simulation instructions level).valid = false →
        achievedPerf instructions (simulation instructions level) = 0)
    ∧ (peakCompute c9Units = 2 ∧ peakMemBW c9Units = 1 ∧ totalFlops c9Insts = 4
        ∧ totalMemOps c9Insts = 4 ∧ operationalIntensity c9Insts = 1
        ∧ rooflineLimit c9Insts c9Units = 1 ∧ isMemBound c9Insts c9Units = true) := by
  refine ⟨totalFlops_eq_sum instructions, totalMemOps_eq_length instructions,
    ?_, ?_, ?_, ?_, rfl, ?_, ?_, ?_, ?_⟩
  · unfold peakCompute numALUs
    rw [foldl_add_count]
    exact Nat.zero_add _
  · unfold peakMemBW numMEMs
    rw [foldl_add_count]
    exact Nat.zero_add _
  · intro h0
    unfold operationalIntensity
    rw [if_neg (by omega)]
  · intro hne
    unfold operationalIntensity
    rw [if_pos (by omega)]
  · unfold isMemBound
    exact decide_eq_true_iff
  · intro hv
    unfold achievedPerf
    rw [if_pos hv,
      validCycles_eq_max (simulation_totalCycles_nonneg instructions level)]
  · intro hv
    unfold achievedPerf
    rw [if_neg (by rw [hv]; exact Bool.false_ne_true)]
  · have hf : totalFlops c9Insts = 4 := by decide
    have hm : totalMemOps c9Insts = 4 := by decide
    have hpc : peakCompute c9Units = 2 := by decide
    have hpm : peakMemBW c9Units = 1 := by decide
    have hoi : operationalIntensity c9Insts = 1 := by
      unfold operationalIntensity
      rw [hf, hm, if_pos (by norm_num)]
      norm_num
    have hmb : memBoundLimit c9Insts c9Units = 1 := by
      unfold memBoundLimit
      rw [hoi, hpm]
      norm_num
    refine ⟨hpc, hpm, hf, hm, hoi, ?_, ?_⟩
    · unfold rooflineLimit memBoundLimit
      rw [hoi, hpm, hpc]
      norm_num
    · unfold isMemBound
      exact decide_eq_true (by rw [hmb, hpc]; norm_num)

/-! ### Scheduler shape lemmas -/

theorem findSlot_eq_some {scheduled : List GameInstruction} {valid : List Nat}
    {earliest c u : Nat} (h : findSlot scheduled valid earliest = some (c, u)) :
    earliest ≤ c ∧ c < earliest + 50 ∧ u ∈ valid ∧ slotOccupied scheduled u c = false := by
  unfold findSlot at h
  rcases List.exists_of_findSome?_eq_some h with ⟨off, hoff, hsome⟩
  rcases Option.map_eq_some'.mp hsome with ⟨u', hfind, heq⟩
  rcases Prod.mk.injEq .. ▸ heq with ⟨hc, hu⟩
  subst hc
  subst hu
  have hofflt : off < 50 := List.mem_range.mp hoff
  have hpred := List.find?_some hfind
  have hmem := List.mem_of_find?_eq_some hfind
  refine ⟨Nat.le_add_right _ _, by omega, hmem, ?_⟩
  simpa using hpred

theorem tryPlace_cases (level : Level) (st : SchedState) (inst : GameInstruction) :
    tryPlace level st inst = st ∨
    ∃ c u : Nat,
      findSlot st.scheduled
          (validUnitIndices level.units (INSTRUCTION_SPECS inst.type).unit)
          (earliestCycle st.pmap inst) = some (c, u) ∧
      (validUnitIndices level.units (INSTRUCTION_SPECS inst.type).unit).isEmpty = false ∧
      tryPlace level st inst =
        { remaining := st.remaining.filter (fun r => !(r.id == inst.id))
          scheduled := st.scheduled
            ++ [{ inst with cycle := (c : Int), unitIndex := (u : Int) }]
          pmap := (inst.id, c, c + (INSTRUCTION_SPECS inst.type).latency) :: st.pmap } := by
  unfold tryPlace
  by_cases hvu : (validUnitIndices level.units (INSTRUCTION_SPECS inst.type).unit).isEmpty
  · rw [if_pos hvu]
    exact Or.inl rfl
  · rw [if_neg hvu]
    rcases hf : findSlot st.scheduled
        (validUnitIndices level.units (INSTRUCTION_SPECS inst.type).unit)
        (earliestCycle st.pmap inst) with _ | ⟨c, u⟩
    · exact Or.inl rfl
    · exact Or.inr ⟨c, u, rfl, by simpa using hvu, rfl⟩

theorem foldl_tryPlace_shape (level : Level) :
    ∀ (cands : List GameInstruction) (st : SchedState),
      (∀ s ∈ (cands.foldl (tryPlace level) st).scheduled,
        s ∈ st.scheduled ∨
          ∃ i ∈ cands, s.id = i.id ∧ s.type = i.type ∧
            s.dependencies = i.dependencies ∧ s.varName = i.varName ∧
            0 ≤ s.cycle ∧ 0 ≤ s.unitIndex) ∧
      (∀ r ∈ (cands.foldl (tryPlace level) st).remaining, r ∈ st.remaining) := by
  intro cands
  induction cands with
  | nil => intro st; exact ⟨fun s hs => Or.inl hs, fun r hr => hr⟩
  | cons x l ih =>
    intro st
    rw [List.foldl_cons]
    rcases tryPlace_cases level st x with heq | ⟨c, u, _, _, heq⟩
    · rw [heq]
      rcases ih st with ⟨ihs, ihr⟩
      exact ⟨fun s hs => (ihs s hs).imp id
          (fun ⟨i, hi, hp⟩ => ⟨i, List.mem_cons_of_mem x hi, hp⟩),
        fun r hr => ihr r hr⟩
    · rcases ih (tryPlace level st x) with ⟨ihs, ihr⟩
      constructor
      · intro s hs
        rcases ihs s hs with hold | ⟨i, hi, hp⟩
        · rw [heq] at hold
          rcases List.mem_append.mp hold with h1 | h1
          · exact Or.inl h1
          · rcases List.mem_singleton.mp h1 with rfl
            exact Or.inr ⟨x, List.mem_cons_self x l, rfl, rfl, rfl, rfl,
              Int.ofNat_nonneg c, Int.ofNat_nonneg u⟩
        · exact Or.inr ⟨i, List.mem_cons_of_mem x hi, hp⟩
      · intro r hr
        have := ihr r hr
        rw [heq] at this
        exact List.mem_of_mem_filter this

theorem scheduleLoop_shape (level : Level) :
    ∀ (fuel : Nat) (st : SchedState),
      (∀ s ∈ (scheduleLoop level fuel st).scheduled,
        s ∈ st.scheduled ∨
          ∃ i ∈ st.remaining, s.id = i.id ∧ s.type = i.type ∧
            s.dependencies = i.dependencies ∧ s.varName = i.varName ∧
            0 ≤ s.cycle ∧ 0 ≤ s.unitIndex) ∧
      (∀ r ∈ (scheduleLoop level fuel st).remaining, r ∈ st.remaining) := by
  intro fuel
  induction fuel with
  | zero => intro st; exact ⟨fun s hs => Or.inl hs, fun r hr => hr⟩
  | succ fuel ih =>
    intro st
    unfold scheduleLoop
    by_cases hrem : st.remaining.isEmpty
    · rw [if_pos hrem]
      exact ⟨fun s hs => Or.inl hs, fun r hr => hr⟩
    · rw [if_neg hrem]
      by_cases hcand : (st.remaining.filter (fun inst => isReady st.pmap inst)).isEmpty
      · rw [if_pos hcand]
        exact ⟨fun s hs => Or.inl hs, fun r hr => hr⟩
      · rw [if_neg hcand]
        rcases ih ((st.remaining.filter (fun inst => isReady st.pmap inst)).foldl
          (tryPlace level) st) with ⟨ihs, ihr⟩
        rcases foldl_tryPlace_shape level
          (st.remaining.filter (fun inst => isReady st.pmap inst)) st with ⟨fs, fr⟩
        constructor
        · intro s hs
          rcases ihs s hs with hold | ⟨i, hi, hp⟩
          · rcases fs s hold with h1 | ⟨i, hi, hp⟩
            · exact Or.inl h1
            · exact Or.inr ⟨i, List.mem_of_mem_filter hi, hp⟩
          · exact Or.inr ⟨i, fr i hi, hp⟩
        · intro r hr
          exact fr r (ihr r hr)

/-- C6: for every input, the auto-scheduler is a total function (defined by
bounded recursion: the 1000-pass outer cap and the 50-cycle slot window) that
returns a best-effort partial placement: every returned instruction is one of
the input instructions (same id, operation, dependencies, result name) with a
nonnegative cycle and unit index; every slot the bounded search commits lies
within 50 cycles of `earliestCycle`; and on the concrete cyclic two-instruction
graph the scheduler stops at once and returns the empty partial placement. -/
theorem C6_bounded_best_effort :
    (∀ (levelInsts : List GameInstruction) (level : Level),
      ∀ s ∈ computeAutoSchedule levelInsts level,
        (∃ i ∈ levelInsts, s.id = i.id ∧ s.type = i.type ∧
          s.dependencies = i.dependencies ∧ s.varName = i.varName)
        ∧ 0 ≤ s.cycle ∧ 0 ≤ s.unitIndex)
    ∧ (∀ (scheduled : List GameInstruction) (valid : List Nat) (earliest c u : Nat),
        findSlot scheduled valid earliest = some (c, u) →
        earliest ≤ c ∧ c < earliest + 50 ∧ u ∈ valid)
    ∧ computeAutoSchedule cyclicInsts c6Level = [] := by
  refine ⟨?_, ?_, by decide⟩
  · intro levelInsts level s hs
    unfold computeAutoSchedule at hs
    rcases (scheduleLoop_shape level 1000
        { remaining := levelInsts.map resetInstruction, scheduled := [], pmap := [] }).1
        s hs with h0 | ⟨i, hi, hid, hty, hdeps, hvar, hc, hu⟩
    · exact absurd h0 (List.not_mem_nil s)
    · rcases List.mem_map.mp hi with ⟨j, hj, rfl⟩
      exact ⟨⟨j, hj, hid, hty, hdeps, hvar⟩, hc, hu⟩
  · intro scheduled valid earliest c u h
    rcases findSlot_eq_some h with ⟨h1, h2, h3, _⟩
    exact ⟨h1, h2, h3⟩

/-! ### Lookup-by-id lemmas -/

theorem find?_id_of_nodup {l : List GameInstruction}
    (h : (l.map (fun i => i.id)).Nodup) {i : GameInstruction} (hi : i ∈ l) :
    l.find? (fun x => x.id == i.id) = some i := by
  rcases hfind : l.find? (fun x => x.id == i.id) with _ | a
  · have := List.find?_eq_none.mp hfind i hi
    simp at this
  · have hpa := List.find?_some hfind
    have hma := List.mem_of_find?_eq_some hfind
    have heq : a.id = i.id := by simpa using hpa
    have hai : a = i := List.inj_on_of_nodup_map h hma hi heq
    subst hai
    exact hfind

theorem find?_id_eq_none {l : List GameInstruction} {key : String}
    (h : ∀ x ∈ l, ¬ x.id = key) : l.find? (fun x => x.id == key) = none :=
  List.find?_eq_none.mpr (fun x hx => by simpa using h x hx)

theorem find?_id_map (l : List GameInstruction) (f : GameInstruction → GameInstruction)
    (hid : ∀ i ∈ l, (f i).id = i.id) (key : String) :
    (l.map f).find? (fun x => x.id == key) = (l.find? (fun x => x.id == key)).map f := by
  induction l with
  | nil => rfl
  | cons i l ih =>
    rw [List.map_cons, List.find?_cons, List.find?_cons,
      show (((f i).id == key) = (i.id == key)) from by
        rw [hid i (List.mem_cons_self i l)]]
    cases hkey : (i.id == key)
    · exact ih (fun j hj => hid j (List.mem_cons_of_mem i hj))
    · rfl

theorem flatMap_congr {α β} {l : List α} {f g : α → List β}
    (h : ∀ x ∈ l, f x = g x) : l.flatMap f = l.flatMap g := by
  induction l with
  | nil => rfl
  | cons a l ih =>
    rw [List.flatMap_cons, List.flatMap_cons, h a (List.mem_cons_self a l),
      ih (fun x hx => h x (List.mem_cons_of_mem a hx))]

/-! ### Validator invariance under normalization of unplaced instructions -/

theorem filter_map_placed (l : List GameInstruction) (f : GameInstruction → GameInstruction)
    (hkeep : ∀ i ∈ l, 0 ≤ i.cycle → f i = i)
    (hneg : ∀ i ∈ l, i.cycle < 0 → (f i).cycle < 0) :
    (l.map f).filter (fun i => decide (0 ≤ i.cycle))
      = l.filter (fun i => decide (0 ≤ i.cycle)) := by
  induction l with
  | nil => rfl
  | cons i l ih =>
    have ihl := ih (fun j hj => hkeep j (List.mem_cons_of_mem i hj))
      (fun j hj => hneg j (List.mem_cons_of_mem i hj))
    by_cases hc : 0 ≤ i.cycle
    · rw [List.map_cons, hkeep i (List.mem_cons_self i l) hc,
        List.filter_cons_of_pos (by simpa using hc),
        List.filter_cons_of_pos (by simpa using hc), ihl]
    · have hneg1 : i.cycle < 0 := by omega
      have hneg2 := hneg i (List.mem_cons_self i l) hneg1
      rw [List.map_cons, List.filter_cons_of_neg (by simpa using (by omega : ¬ 0 ≤ (f i).cycle)),
        List.filter_cons_of_neg (by simpa using hc), ihl]

theorem allPlaced_map (l : List GameInstruction) (f : GameInstruction → GameInstruction)
    (hkeep : ∀ i ∈ l, 0 ≤ i.cycle → f i = i)
    (hneg : ∀ i ∈ l, i.cycle < 0 → (f i).cycle < 0) :
    allPlaced (l.map f) = allPlaced l := by
  unfold allPlaced
  induction l with
  | nil => rfl
  | cons i l ih =>
    have ihl := ih (fun j hj => hkeep j (List.mem_cons_of_mem i hj))
      (fun j hj => hneg j (List.mem_cons_of_mem i hj))
    rw [List.map_cons, List.all_cons, List.all_cons, ihl]
    by_cases hc : 0 ≤ i.cycle
    · rw [hkeep i (List.mem_cons_self i l) hc]
    · have hneg2 := hneg i (List.mem_cons_self i l) (by omega)
      rw [decide_eq_false hc, decide_eq_false (by omega)]

theorem depHazards_map (l : List GameInstruction) (f : GameInstruction → GameInstruction)
    (hid : ∀ i ∈ l, (f i).id = i.id)
    (hvar : ∀ i ∈ l, (f i).varName = i.varName)
    (hkeep : ∀ i ∈ l, 0 ≤ i.cycle → f i = i)
    (hneg : ∀ i ∈ l, i.cycle < 0 → (f i).cycle < 0)
    (inst : GameInstruction) (depId : String) :
    depHazards (l.map f) inst depId = depHazards l inst depId := by
  unfold depHazards
  rw [find?_id_map l f hid depId]
  rcases hfind : l.find? (fun x => x.id == depId) with _ | j
  · rw [hfind]
    rfl
  · rw [hfind]
    have hj : j ∈ l := List.mem_of_find?_eq_some hfind
    simp only [Option.map_some']
    by_cases hjc : j.cycle < 0
    · rw [if_pos hjc, if_pos (hneg j hj hjc), hvar j hj]
    · rw [hkeep j hj (by omega)]

theorem simulation_map_invariant (instructions : List GameInstruction) (level : Level)
    (f : GameInstruction → GameInstruction)
    (hid : ∀ i ∈ instructions, (f i).id = i.id)
    (hvar : ∀ i ∈ instructions, (f i).varName = i.varName)
    (hkeep : ∀ i ∈ instructions, 0 ≤ i.cycle → f i = i)
    (hneg : ∀ i ∈ instructions, i.cycle < 0 → (f i).cycle < 0) :
    simulation (instructions.map f) level = simulation instructions level := by
  have hfilter := filter_map_placed instructions f hkeep hneg
  have hsorted : placedSorted (instructions.map f) = placedSorted instructions := by
    unfold placedSorted
    rw [hfilter]
  have hhaz : simHazards (instructions.map f) level = simHazards instructions level := by
    unfold simHazards
    rw [hsorted]
    exact flatMap_congr (fun x _ => by
      unfold instHazards
      rw [flatMap_congr (fun depId _ =>
        depHazards_map instructions f hid hvar hkeep hneg x depId)])
  have hmax : simMaxCycle (instructions.map f) = simMaxCycle instructions := by
    unfold simMaxCycle
    rw [hsorted]
  have hall := allPlaced_map instructions f hkeep hneg
  unfold simulation
  rw [hsorted, hhaz, hmax, hall]

/-- C8: exporting the placements of a board state in which every placed
instruction also has a nonnegative `unitIndex`, and re-applying the export to
a freshly reset copy of the instruction set (instructions absent from the
export become unplaced), reproduces a state on which the validator returns an
identical `SimulationResult`. Instruction ids are assumed pairwise distinct
(the data model treats the instruction list as a set keyed by id). -/
theorem C8_export_replay_roundtrip (instructions : List GameInstruction) (level : Level)
    (hids : (instructions.map (fun i => i.id)).Nodup)
    (hplaced : ∀ i ∈ instructions, 0 ≤ i.cycle → 0 ≤ i.unitIndex) :
    simulation (applyPlacements (resetAll instructions) (exportPlacements instructions)) level
      = simulation instructions level := by
  have happly : applyPlacements (resetAll instructions) (exportPlacements instructions)
      = instructions.map (fun i => if 0 ≤ i.cycle then i else resetInstruction i) := by
    unfold applyPlacements resetAll
    rw [List.map_map]
    refine List.map_congr_left (fun i hi => ?_)
    show (match (exportPlacements instructions).find?
        (fun p => p.instructionId == (resetInstruction i).id) with
      | some m => { resetInstruction i with cycle := m.cycle, unitIndex := m.unitIndex }
      | none => { resetInstruction i with cycle := -1, unitIndex := -1 }) = _
    have hresetid : (resetInstruction i).id = i.id := rfl
    rw [hresetid]
    have hfiltnodup : ((instructions.filter
        (fun i => decide (0 ≤ i.cycle) && decide (0 ≤ i.unitIndex))).map
          (fun i => i.id)).Nodup :=
      hids.sublist (List.Sublist.map _ (List.filter_sublist instructions))
    by_cases hc : 0 ≤ i.cycle
    · have hq : (decide (0 ≤ i.cycle) && decide (0 ≤ i.unitIndex)) = true := by
        rw [decide_eq_true hc, decide_eq_true (hplaced i hi hc)]
        rfl
      have hifilt : i ∈ instructions.filter
          (fun i => decide (0 ≤ i.cycle) && decide (0 ≤ i.unitIndex)) :=
        List.mem_filter_of_mem hi hq
      have hfind : (exportPlacements instructions).find?
          (fun p => p.instructionId == i.id)
          = some { instructionId := i.id, type := i.type, cycle := i.cycle,
                   unitIndex := i.unitIndex } := by
        unfold exportPlacements
        rw [List.find?_map]
        have : (instructions.filter
            (fun i => decide (0 ≤ i.cycle) && decide (0 ≤ i.unitIndex))).find?
              (fun x => x.id == i.id) = some i :=
          find?_id_of_nodup hfiltnodup hifilt
        rw [show ((fun p : PlacementEntry => p.instructionId == i.id) ∘
            (fun i : GameInstruction =>
              ({ instructionId := i.id, type := i.type, cycle := i.cycle,
                 unitIndex := i.unitIndex } : PlacementEntry)))
            = (fun x : GameInstruction => x.id == i.id) from rfl, this]
        rfl
      rw [hfind, if_pos hc]
      rfl
    · have hfind : (exportPlacements instructions).find?
          (fun p => p.instructionId == i.id) = none := by
        unfold exportPlacements
        rw [List.find?_map]
        have : (instructions.filter
            (fun i => decide (0 ≤ i.cycle) && decide (0 ≤ i.unitIndex))).find?
              (fun x => x.id == i.id) = none := by
          apply find?_id_eq_none
          intro x hx hxid
          rcases List.mem_filter.mp hx with ⟨hxmem, hxq⟩
          have hxc : 0 ≤ x.cycle := by
            simp only [Bool.and_eq_true, decide_eq_true_eq] at hxq
            exact hxq.1
          have : x = i := List.inj_on_of_nodup_map hids hxmem hi hxid
          rw [this] at hxc
          exact hc hxc
        rw [show ((fun p : PlacementEntry => p.instructionId == i.id) ∘
            (fun i : GameInstruction =>
              ({ instructionId := i.id, type := i.type, cycle := i.cycle,
                 unitIndex := i.unitIndex } : PlacementEntry)))
            = (fun x : GameInstruction => x.id == i.id) from rfl, this]
        rfl
      rw [hfind, if_neg hc]
      rfl
  rw [happly]
  exact simulation_map_invariant instructions level _
    (fun i _ => by by_cases hc : 0 ≤ i.cycle
                   · rw [if_pos hc]
                   · rw [if_neg hc]; rfl)
    (fun i _ => by by_cases hc : 0 ≤ i.cycle
                   · rw [if_pos hc]
                   · rw [if_neg hc]; rfl)
    (fun i _ hc => by rw [if_pos hc])
    (fun i _ hc => by
      rw [if_neg (by omega)]
      show (-1 : Int) < 0
      decide)

/-! ### Scheduler invariant: basic lemmas -/

theorem mem_validUnitIndices {units : List UnitEntry} {k : UnitKind} {u : Nat} :
    u ∈ validUnitIndices units k ↔ ∃ e, units.get? u = some e ∧ e.type = k := by
  unfold validUnitIndices
  constructor
  · intro hu
    rcases List.mem_map.mp hu with ⟨p, hp, rfl⟩
    rcases List.mem_filter.mp hp with ⟨henum, hkind⟩
    exact ⟨p.2, List.mem_enum_iff_get?.mp henum, by simpa using hkind⟩
  · rintro ⟨e, hget, hkind⟩
    exact List.mem_map.mpr ⟨(u, e),
      List.mem_filter.mpr ⟨List.mem_enum_iff_get?.mpr hget, by simpa using hkind⟩, rfl⟩

theorem validUnitIndices_ne_nil {units : List UnitEntry} {k : UnitKind}
    (h : ∃ e ∈ units, e.type = k) : validUnitIndices units k ≠ [] := by
  rcases h with ⟨e, he, hk⟩
  rcases List.mem_iff_get?.mp he with ⟨n, hn⟩
  intro hnil
  have : n ∈ validUnitIndices units k := mem_validUnitIndices.mpr ⟨e, hn, hk⟩
  rw [hnil] at this
  exact List.not_mem_nil n this

theorem unitAt_coe (units : List UnitEntry) (u : Nat) :
    unitAt units (u : Int) = units.get? u := by
  unfold unitAt
  rw [if_pos (Int.ofNat_nonneg u), Int.toNat_natCast]

theorem slotOccupied_eq_false {scheduled : List GameInstruction} {u c : Nat} :
    slotOccupied scheduled u c = false ↔
      ∀ s ∈ scheduled, ¬(s.unitIndex = (u : Int) ∧ s.cycle = (c : Int)) := by
  unfold slotOccupied
  rw [← Bool.not_eq_true, List.any_eq_true]
  constructor
  · intro h s hs hp
    exact h ⟨s, hs, by simp [hp.1, hp.2]⟩
  · rintro h ⟨s, hs, hp⟩
    simp only [Bool.and_eq_true, beq_iff_eq] at hp
    exact h s hs hp

theorem earliest_fold_mono (m : List (String × Nat × Nat)) :
    ∀ (l : List String) (acc : Nat),
      acc ≤ l.foldl (fun acc d =>
        match pmapGet m d with
        | some p => max acc p.2
        | none => acc) acc
  | [], acc => le_refl _
  | d :: l, acc => by
    rw [List.foldl_cons]
    rcases hg : pmapGet m d with _ | p
    · exact earliest_fold_mono m l acc
    · exact le_trans (le_max_left acc p.2) (earliest_fold_mono m l (max acc p.2))

theorem earliest_fold_ge (m : List (String × Nat × Nat)) :
    ∀ (l : List String) (acc : Nat) (d : String) (p : Nat × Nat),
      d ∈ l → pmapGet m d = some p →
      p.2 ≤ l.foldl (fun acc d =>
        match pmapGet m d with
        | some p => max acc p.2
        | none => acc) acc := by
  intro l
  induction l with
  | nil => intro acc d p hd; exact absurd hd (List.not_mem_nil d)
  | cons e l ih =>
    intro acc d p hd hg
    rcases List.mem_cons.mp hd with rfl | hd2
    · rw [List.foldl_cons, hg]
      exact le_trans (le_max_right acc p.2) (earliest_fold_mono m l (max acc p.2))
    · rw [List.foldl_cons]
      rcases hpe : pmapGet m e with _ | q
      · exact ih acc d p hd2 hg
      · exact ih (max acc q.2) d p hd2 hg

theorem earliestCycle_ge {m : List (String × Nat × Nat)} {inst : GameInstruction}
    {d : String} {p : Nat × Nat} (hd : d ∈ inst.dependencies)
    (hg : pmapGet m d = some p) : p.2 ≤ earliestCycle m inst :=
  earliest_fold_ge m inst.dependencies 0 d p hd hg

theorem exists_min_rank (rank : String → Nat) :
    ∀ (l : List GameInstruction), l ≠ [] →
      ∃ i ∈ l, ∀ j ∈ l, rank i.id ≤ rank j.id
  | [], h => absurd rfl h
  | [a], _ => ⟨a, List.mem_singleton.mpr rfl, by
      intro j hj
      rcases List.mem_singleton.mp hj with rfl
      exact le_refl _⟩
  | a :: b :: l, _ => by
    rcases exists_min_rank rank (b :: l) (by simp) with ⟨m, hm, hmin⟩
    by_cases hc : rank a.id ≤ rank m.id
    · refine ⟨a, List.mem_cons_self a (b :: l), ?_⟩
      intro j hj
      rcases List.mem_cons.mp hj with rfl | hj2
      · exact le_refl _
      · exact le_trans hc (hmin j hj2)
    · refine ⟨m, List.mem_cons_of_mem a hm, ?_⟩
      intro j hj
      rcases List.mem_cons.mp hj with rfl | hj2
      · omega
      · exact hmin j hj2

theorem filter_ne_id_length {l : List GameInstruction}
    (hnd : (l.map (fun i => i.id)).Nodup) {i : GameInstruction} (hi : i ∈ l) :
    (l.filter (fun r => !(r.id == i.id))).length + 1 = l.length := by
  induction l with
  | nil => exact absurd hi (List.not_mem_nil i)
  | cons a l ih =>
    rw [List.map_cons, List.nodup_cons] at hnd
    by_cases hid : a.id = i.id
    · have hkeep : ∀ x ∈ l, (!(x.id == i.id)) = true := by
        intro x hx
        have : x.id ≠ a.id := by
          intro he
          exact hnd.1 (he ▸ List.mem_map_of_mem (fun i => i.id) hx)
        simp [hid ▸ this]
      rw [List.filter_cons_of_neg (by simp [hid]), List.filter_eq_self.mpr hkeep]
      rfl
    · have hi2 : i ∈ l := by
        rcases List.mem_cons.mp hi with rfl | h2
        · exact absurd rfl hid
        · exact h2
      rw [List.filter_cons_of_pos (by simpa using hid), List.length_cons,
        List.length_cons]
      have := ih hnd.2 hi2
      omega

theorem mem_filter_ne_id {l : List GameInstruction} {i x : GameInstruction} :
    x ∈ l.filter (fun r => !(r.id == i.id)) ↔ x ∈ l ∧ ¬ x.id = i.id := by
  rw [List.mem_filter]
  simp

theorem findSlot_isSome {scheduled : List GameInstruction} {valid : List Nat}
    {earliest : Nat} (hvu : valid ≠ []) (hcard : scheduled.length < 50) :
    ∃ c u, findSlot scheduled valid earliest = some (c, u) := by
  have hfree : ∃ off, off ∈ List.range 50 ∧
      ∀ s ∈ scheduled, ¬ s.cycle = ((earliest + off : Nat) : Int) := by
    by_contra hno
    push_neg at hno
    have hsub : (Finset.range 50).image (fun off => ((earliest + off : Nat) : Int))
        ⊆ (scheduled.map (fun s => s.cycle)).toFinset := by
      intro z hz
      rcases Finset.mem_image.mp hz with ⟨off, hoff, rfl⟩
      rcases hno off (List.mem_range.mpr (Finset.mem_range.mp hoff)) with ⟨s, hs, hsc⟩
      rw [List.mem_toFinset]
      exact List.mem_map.mpr ⟨s, hs, hsc⟩
    have hcardim : ((Finset.range 50).image
        (fun off => ((earliest + off : Nat) : Int))).card = 50 := by
      rw [Finset.card_image_of_injOn, Finset.card_range]
      intro x _ y _ hxy
      have hxy2 : ((earliest + x : Nat) : Int) = ((earliest + y : Nat) : Int) := hxy
      have : earliest + x = earliest + y := by exact_mod_cast hxy2
      omega
    have h1 : ((Finset.range 50).image
        (fun off => ((earliest + off : Nat) : Int))).card
        ≤ (scheduled.map (fun s => s.cycle)).toFinset.card :=
      Finset.card_le_card hsub
    have h2 : (scheduled.map (fun s => s.cycle)).toFinset.card
        ≤ scheduled.length := by
      calc (scheduled.map (fun s => s.cycle)).toFinset.card
          ≤ (scheduled.map (fun s => s.cycle)).length := List.toFinset_card_le _
        _ = scheduled.length := List.length_map _ _
    omega
  rcases hfree with ⟨off, hoffmem, hofffree⟩
  rcases hu : findSlot scheduled valid earliest with _ | ⟨c, u⟩
  · exfalso
    unfold findSlot at hu
    have := List.findSome?_eq_none_iff.mp hu off hoffmem
    rcases hfq : valid.find? (fun u => !(slotOccupied scheduled u (earliest + off))) with _ | u
    · rcases List.exists_mem_of_ne_nil valid hvu with ⟨u0, hu0⟩
      have hocc : slotOccupied scheduled u0 (earliest + off) = true := by
        have h := List.find?_eq_none.mp hfq u0 hu0
        simpa using h
      unfold slotOccupied at hocc
      rcases List.any_eq_true.mp hocc with ⟨s, hs, hsp⟩
      simp only [Bool.and_eq_true, beq_iff_eq] at hsp
      exact hofffree s hs hsp.2
    · rw [hfq] at this
      simp at this
  · exact ⟨c, u, rfl⟩

theorem pmapHas_cons {e : String × Nat × Nat} {m : List (String × Nat × Nat)}
    {key : String} : pmapHas (e :: m) key = ((e.1 == key) || pmapHas m key) := by
  unfold pmapHas
  rw [List.any_cons]

theorem pmapGet_cons_self {k : String} {v : Nat × Nat} {m : List (String × Nat × Nat)} :
    pmapGet ((k, v) :: m) k = some v := by
  unfold pmapGet
  rw [List.find?_cons]
  simp

theorem pmapGet_cons_ne {k key : String} {v : Nat × Nat}
    {m : List (String × Nat × Nat)} (h : ¬ k = key) :
    pmapGet ((k, v) :: m) key = pmapGet m key := by
  unfold pmapGet
  rw [List.find?_cons]
  have hb : ((k, v).1 == key) = false := by simpa using h
  rw [hb]

/-- Preservation of the scheduler invariant by one successful `tryPlace` on a
ready candidate (together with the exact bookkeeping facts the pass needs). -/
theorem tryPlace_inv (S : List GameInstruction) (level : Level)
    (st : SchedState) (inst : GameInstruction)
    (hSnodup : (S.map (fun i => i.id)).Nodup)
    (hsize : S.length ≤ 50)
    (hInv : SchedInv S level st)
    (hin : inst ∈ st.remaining)
    (hready : isReady st.pmap inst = true)
    (hvu : validUnitIndices level.units (INSTRUCTION_SPECS inst.type).unit ≠ []) :
    SchedInv S level (tryPlace level st inst) ∧
    (tryPlace level st inst).remaining.length + 1 = st.remaining.length ∧
    (∀ key, pmapHas st.pmap key = true →
      pmapHas (tryPlace level st inst).pmap key = true) ∧
    (∀ y ∈ st.remaining, ¬ y.id = inst.id → y ∈ (tryPlace level st inst).remaining) := by
  have hremnodup : (st.remaining.map (fun i => i.id)).Nodup :=
    hSnodup.sublist (hInv.rem_sub.map (fun i => i.id))
  have hrem1 : 0 < st.remaining.length := List.length_pos_of_mem hin
  have hcard : st.scheduled.length < 50 := by
    have := hInv.len_eq
    omega
  rcases @findSlot_isSome st.scheduled
      (validUnitIndices level.units (INSTRUCTION_SPECS inst.type).unit)
      (earliestCycle st.pmap inst) hvu hcard with ⟨c, u, hslot⟩
  have hvuempty : (validUnitIndices level.units
      (INSTRUCTION_SPECS inst.type).unit).isEmpty = false := by
    simpa using hvu
  have htp : tryPlace level st inst =
      { remaining := st.remaining.filter (fun r => !(r.id == inst.id))
        scheduled := st.scheduled
          ++ [{ inst with cycle := (c : Int), unitIndex := (u : Int) }]
        pmap := (inst.id, c, c + (INSTRUCTION_SPECS inst.type).latency) :: st.pmap } := by
    unfold tryPlace
    rw [if_neg (by rw [hvuempty]; exact Bool.false_ne_true), hslot]
  rcases findSlot_eq_some hslot with ⟨hce, _, humem, hocc⟩
  have hufree := slotOccupied_eq_false.mp hocc
  rcases mem_validUnitIndices.mp humem with ⟨e, hgete, hkinde⟩
  have hinS : inst ∈ S := hInv.rem_sub.subset hin
  have hnotsched : ∀ s ∈ st.scheduled, ¬ s.id = inst.id :=
    fun s hs => hInv.not_both inst hin s hs
  rw [htp]
  refine ⟨⟨?_, ?_, ?_, ?_, ?_, ?_, ?_, ?_, ?_, ?_, ?_⟩, ?_, ?_, ?_⟩
  · exact (List.filter_sublist _).trans hInv.rem_sub
  · intro s hs
    rcases List.mem_append.mp hs with hold | hnew
    · exact hInv.sched_src s hold
    · rcases List.mem_singleton.mp hnew with rfl
      exact ⟨inst, hinS, rfl, rfl, rfl, rfl⟩
  · intro i hi
    rcases hInv.covered i hi with hiR | ⟨s, hs, hsid⟩
    · by_cases hidq : i.id = inst.id
      · refine Or.inr ⟨_, List.mem_append_right _ (List.mem_singleton.mpr rfl), ?_⟩
        show inst.id = i.id
        exact hidq.symm
      · exact Or.inl (mem_filter_ne_id.mpr ⟨hiR, hidq⟩)
    · exact Or.inr ⟨s, List.mem_append_left _ hs, hsid⟩
  · intro r hr s hs
    rcases mem_filter_ne_id.mp hr with ⟨hrrem, hrne⟩
    rcases List.mem_append.mp hs with hold | hnew
    · exact hInv.not_both r hrrem s hold
    · rcases List.mem_singleton.mp hnew with rfl
      show ¬ inst.id = r.id
      exact fun heq => hrne heq.symm
  · rw [List.map_append]
    refine List.Nodup.append hInv.sched_nodup (List.nodup_singleton _) ?_
    intro a ha hb
    rcases List.mem_singleton.mp hb with rfl
    rcases List.mem_map.mp ha with ⟨s, hs, hsid⟩
    exact hnotsched s hs hsid
  · intro key
    rw [pmapHas_cons]
    constructor
    · intro hk
      rcases (Bool.or_eq_true _ _).mp hk with h1 | h2
      · have : inst.id = key := by simpa using h1
        exact ⟨_, List.mem_append_right _ (List.mem_singleton.mpr rfl), this⟩
      · rcases (hInv.pmap_keys key).mp h2 with ⟨s, hs, hsid⟩
        exact ⟨s, List.mem_append_left _ hs, hsid⟩
    · rintro ⟨s, hs, hsid⟩
      rcases List.mem_append.mp hs with hold | hnew
      · rw [(hInv.pmap_keys key).mpr ⟨s, hold, hsid⟩, Bool.or_true]
      · rcases List.mem_singleton.mp hnew with rfl
        have : (inst.id == key) = true := by simpa using hsid
        rw [this, Bool.true_or]
  · intro s hs
    rcases List.mem_append.mp hs with hold | hnew
    · rcases hInv.pmap_val s hold with ⟨c', hc', hget⟩
      refine ⟨c', hc', ?_⟩
      rw [pmapGet_cons_ne (fun heq => hnotsched s hold heq.symm), hget]
    · rcases List.mem_singleton.mp hnew with rfl
      exact ⟨c, rfl, pmapGet_cons_self⟩
  · intro s hs
    rcases List.mem_append.mp hs with hold | hnew
    · exact hInv.sched_unit s hold
    · rcases List.mem_singleton.mp hnew with rfl
      refine ⟨e, ?_, hkinde⟩
      show unitAt level.units (u : Int) = some e
      rw [unitAt_coe]
      exact hgete
  · refine List.pairwise_append.mpr
      ⟨hInv.sched_pairs, List.pairwise_singleton _ _, ?_⟩
    intro a ha b hb
    rcases List.mem_singleton.mp hb with rfl
    exact hufree a ha
  · intro s hs d hd
    rcases List.mem_append.mp hs with hold | hnew
    · rcases hInv.sched_deps s hold d hd with ⟨t, ht, htid, htle⟩
      exact ⟨t, List.mem_append_left _ ht, htid, htle⟩
    · rcases List.mem_singleton.mp hnew with rfl
      have hdhas : pmapHas st.pmap d = true :=
        List.all_eq_true.mp hready d hd
      rcases (hInv.pmap_keys d).mp hdhas with ⟨t, ht, htid⟩
      rcases hInv.pmap_val t ht with ⟨ct, htc, htget⟩
      rw [htid] at htget
      have hle : ct + (INSTRUCTION_SPECS t.type).latency ≤ c :=
        le_trans (earliestCycle_ge hd htget) hce
      refine ⟨t, List.mem_append_left _ ht, htid, ?_⟩
      show t.cycle + ((INSTRUCTION_SPECS t.type).latency : Int) ≤ (c : Int)
      rw [htc]
      exact_mod_cast hle
  · have h1 := filter_ne_id_length hremnodup hin
    have h2 := hInv.len_eq
    simp only [List.length_append, List.length_singleton]
    omega
  · exact filter_ne_id_length hremnodup hin
  · intro key hk
    rw [pmapHas_cons, hk, Bool.or_true]
  · intro y hy hyne
    exact mem_filter_ne_id.mpr ⟨hy, hyne⟩

/-- One pass of the scheduler's candidate loop preserves the invariant and
places every candidate (each candidate is removed from `remaining`). -/
theorem foldl_tryPlace_inv (S : List GameInstruction) (level : Level)
    (hSnodup : (S.map (fun i => i.id)).Nodup) (hsize : S.length ≤ 50)
    (hSunit : ∀ i ∈ S,
      validUnitIndices level.units (INSTRUCTION_SPECS i.type).unit ≠ []) :
    ∀ (cands : List GameInstruction) (st : SchedState),
      SchedInv S level st →
      (∀ x ∈ cands, x ∈ st.remaining ∧ isReady st.pmap x = true) →
      ((cands.map (fun i => i.id)).Nodup) →
      SchedInv S level (cands.foldl (tryPlace level) st) ∧
      (cands.foldl (tryPlace level) st).remaining.length + cands.length
        = st.remaining.length := by
  intro cands
  induction cands with
  | nil => intro st hInv _ _; exact ⟨hInv, rfl⟩
  | cons x l ih =>
    intro st hInv hx hnd
    rcases hx x (List.mem_cons_self x l) with ⟨hxin, hxready⟩
    have hxvu := hSunit x (hInv.rem_sub.subset hxin)
    rcases tryPlace_inv S level st x hSnodup hsize hInv hxin hxready hxvu with
      ⟨hInv1, hlen1, hmono1, hkeep1⟩
    rw [List.map_cons, List.nodup_cons] at hnd
    have htail : ∀ y ∈ l, y ∈ (tryPlace level st x).remaining ∧
        isReady (tryPlace level st x).pmap y = true := by
      intro y hy
      rcases hx y (List.mem_cons_of_mem x hy) with ⟨hyin, hyready⟩
      have hyne : ¬ y.id = x.id := by
        intro he
        exact hnd.1 (he ▸ List.mem_map_of_mem (fun i => i.id) hy)
      refine ⟨hkeep1 y hyin hyne, ?_⟩
      unfold isReady at hyready ⊢
      rw [List.all_eq_true] at hyready ⊢
      exact fun d hd => hmono1 d (hyready d hd)
    rcases ih (tryPlace level st x) hInv1 htail hnd.2 with ⟨hInvf, hlenf⟩
    rw [List.foldl_cons]
    refine ⟨hInvf, ?_⟩
    rw [List.length_cons]
    omega

/-- The scheduler's outer loop, run with enough fuel on a feasible source
list, empties `remaining` while preserving the invariant. -/
theorem scheduleLoop_inv (S : List GameInstruction) (level : Level) (rank : String → Nat)
    (hSnodup : (S.map (fun i => i.id)).Nodup) (hsize : S.length ≤ 50)
    (hSrank : ∀ i ∈ S, ∀ d ∈ i.dependencies, ∃ j ∈ S, j.id = d ∧ rank d < rank i.id)
    (hSunit : ∀ i ∈ S,
      validUnitIndices level.units (INSTRUCTION_SPECS i.type).unit ≠ []) :
    ∀ (fuel : Nat) (st : SchedState),
      SchedInv S level st → st.remaining.length ≤ fuel →
      (scheduleLoop level fuel st).remaining = [] ∧
      SchedInv S level (scheduleLoop level fuel st) := by
  intro fuel
  induction fuel with
  | zero =>
    intro st hInv hlen
    have h0 : st.remaining = [] := List.length_eq_zero.mp (by omega)
    exact ⟨h0, hInv⟩
  | succ fuel ih =>
    intro st hInv hlen
    unfold scheduleLoop
    by_cases hempty : st.remaining.isEmpty
    · rw [if_pos hempty]
      exact ⟨List.isEmpty_iff.mp hempty, hInv⟩
    · rw [if_neg hempty]
      have hremne : st.remaining ≠ [] := by simpa using hempty
      rcases exists_min_rank rank st.remaining hremne with ⟨imin, hminmem, hmin⟩
      have hminready : isReady st.pmap imin = true := by
        unfold isReady
        rw [List.all_eq_true]
        intro d hd
        rcases hSrank imin (hInv.rem_sub.subset hminmem) d hd with
          ⟨j, hjS, hjid, hjrank⟩
        rcases hInv.covered j hjS with hjrem | ⟨s, hs, hsid⟩
        · exfalso
          have := hmin j hjrem
          rw [hjid] at this
          omega
        · exact (hInv.pmap_keys d).mpr ⟨s, hs, by rw [hsid, hjid]⟩
      have hcandmem : imin ∈ st.remaining.filter (fun inst => isReady st.pmap inst) :=
        List.mem_filter.mpr ⟨hminmem, hminready⟩
      have hcandne : ¬ (st.remaining.filter
          (fun inst => isReady st.pmap inst)).isEmpty = true := by
        intro hc
        rw [List.isEmpty_iff.mp hc] at hcandmem
        exact List.not_mem_nil _ hcandmem
      rw [if_neg hcandne]
      have hcandsub : (st.remaining.filter
          (fun inst => isReady st.pmap inst)).Sublist st.remaining :=
        List.filter_sublist _
      have hcandnodup : ((st.remaining.filter
          (fun inst => isReady st.pmap inst)).map (fun i => i.id)).Nodup :=
        hSnodup.sublist ((hcandsub.trans hInv.rem_sub).map (fun i => i.id))
      have hcandcond : ∀ x ∈ st.remaining.filter (fun inst => isReady st.pmap inst),
          x ∈ st.remaining ∧ isReady st.pmap x = true := by
        intro x hx
        rcases List.mem_filter.mp hx with ⟨h1, h2⟩
        exact ⟨h1, h2⟩
      rcases foldl_tryPlace_inv S level hSnodup hsize hSunit _ st hInv hcandcond
        hcandnodup with ⟨hInv1, hlen1⟩
      have hcandlen : 0 < (st.remaining.filter
          (fun inst => isReady st.pmap inst)).length :=
        List.length_pos_of_mem hcandmem
      exact ih _ hInv1 (by omega)

/-- C2, counterexample: the empty instruction set is a feasible level (acyclic
graph, unit availability vacuously true, bounds trivially sufficient) on which
the scheduler places every (zero) instruction and the validator reports an
empty hazard list — but `valid = false`, not `true` as claimed. -/
theorem C2_counterexample :
    ((∀ i ∈ ([] : List GameInstruction), ∃ e ∈ emptyLevel.units,
        e.type = (INSTRUCTION_SPECS i.type).unit)
      ∧ computeAutoSchedule [] emptyLevel = []
      ∧ (simulation (mergeSchedule [] (computeAutoSchedule [] emptyLevel))
          emptyLevel).hazards = [])
    ∧ ¬ (simulation (mergeSchedule [] (computeAutoSchedule [] emptyLevel))
          emptyLevel).valid = true := by
  decide

/-- C2 (amended to nonempty instruction sets): for every feasible level — ids
pairwise distinct, dependency graph acyclic (witnessed by a rank function
whose edges also resolve inside the set), every instruction's required unit
kind present in the inventory, and at most 50 instructions (so the 50-cycle
slot window and 1000-pass cap always suffice) — the auto-scheduler places
every instruction, and the validator on the merged output reports an empty
hazard list and `valid = true`. -/
theorem C2_feasible_autoschedule (insts : List GameInstruction) (level : Level)
    (rank : String → Nat)
    (hids : (insts.map (fun i => i.id)).Nodup)
    (hrank : ∀ i ∈ insts, ∀ d ∈ i.dependencies,
      ∃ j ∈ insts, j.id = d ∧ rank d < rank i.id)
    (hunit : ∀ i ∈ insts, ∃ e ∈ level.units, e.type = (INSTRUCTION_SPECS i.type).unit)
    (hsize : insts.length ≤ 50)
    (hne : insts ≠ []) :
    (∀ i ∈ insts, ∃ s ∈ computeAutoSchedule insts level, s.id = i.id)
    ∧ (∀ m ∈ mergeSchedule insts (computeAutoSchedule insts level), 0 ≤ m.cycle)
    ∧ (simulation (mergeSchedule insts (computeAutoSchedule insts level))
        level).hazards = []
    ∧ (simulation (mergeSchedule insts (computeAutoSchedule insts level))
        level).valid = true := by
  have hSnodup : ((insts.map resetInstruction).map (fun i => i.id)).Nodup := by
    rw [List.map_map]
    exact hids
  have hSrank : ∀ i ∈ insts.map resetInstruction, ∀ d ∈ i.dependencies,
      ∃ j ∈ insts.map resetInstruction, j.id = d ∧ rank d < rank i.id := by
    intro i hi d hd
    rcases List.mem_map.mp hi with ⟨i0, hi0, rfl⟩
    rcases hrank i0 hi0 d hd with ⟨j, hj, hjid, hjrank⟩
    exact ⟨resetInstruction j, List.mem_map_of_mem _ hj, hjid, hjrank⟩
  have hSunit : ∀ i ∈ insts.map resetInstruction,
      validUnitIndices level.units (INSTRUCTION_SPECS i.type).unit ≠ [] := by
    intro i hi
    rcases List.mem_map.mp hi with ⟨i0, hi0, rfl⟩
    exact validUnitIndices_ne_nil (hunit i0 hi0)
  have hSsize : (insts.map resetInstruction).length ≤ 50 := by
    rw [List.length_map]
    exact hsize
  have hInv0 : SchedInv (insts.map resetInstruction) level
      { remaining := insts.map resetInstruction, scheduled := [], pmap := [] } := by
    refine ⟨List.Sublist.refl _,
      fun s hs => absurd hs (List.not_mem_nil s),
      fun i hi => Or.inl hi,
      fun r _ s hs => absurd hs (List.not_mem_nil s),
      by simp,
      ?_,
      fun s hs => absurd hs (List.not_mem_nil s),
      fun s hs => absurd hs (List.not_mem_nil s),
      List.Pairwise.nil,
      fun s hs => absurd hs (List.not_mem_nil s),
      by simp⟩
    intro key
    constructor
    · intro hk
      exact absurd hk (by simp [pmapHas])
    · rintro ⟨s, hs, _⟩
      exact absurd hs (List.not_mem_nil s)
  rcases scheduleLoop_inv (insts.map resetInstruction) level rank hSnodup hSsize
      hSrank hSunit 1000
      { remaining := insts.map resetInstruction, scheduled := [], pmap := [] }
      hInv0 (by rw [List.length_map]; omega) with ⟨hfinalrem, hfinalInv⟩
  have hplace : ∀ i ∈ insts, ∃ s ∈ computeAutoSchedule insts level, s.id = i.id := by
    intro i hi
    rcases hfinalInv.covered (resetInstruction i) (List.mem_map_of_mem _ hi) with
      hr | ⟨s, hs, hsid⟩
    · rw [hfinalrem] at hr
      exact absurd hr (List.not_mem_nil _)
    · exact ⟨s, hs, hsid⟩
  rcases List.exists_mem_of_ne_nil insts hne with ⟨i0, hi0⟩
  rcases hplace i0 hi0 with ⟨s0, hs0, _⟩
  have hschedne : computeAutoSchedule insts level ≠ [] := by
    intro h
    rw [h] at hs0
    exact List.not_mem_nil _ hs0
  have hmerge : mergeSchedule insts (computeAutoSchedule insts level)
      = insts.map (fun p =>
        match (computeAutoSchedule insts level).find? (fun x => x.id == p.id) with
        | some s => s
        | none => p) := by
    unfold mergeSchedule
    rw [if_pos (List.length_pos.mpr hschedne)]
  have hpick : ∀ i ∈ insts, ∃ s,
      (computeAutoSchedule insts level).find? (fun x => x.id == i.id) = some s
      ∧ s ∈ computeAutoSchedule insts level ∧ s.id = i.id := by
    intro i hi
    rcases hplace i hi with ⟨s, hs, hsid⟩
    have hne2 : (computeAutoSchedule insts level).find? (fun x => x.id == i.id)
        ≠ none := by
      intro hf
      have := List.find?_eq_none.mp hf s hs
      simp [hsid] at this
    rcases Option.ne_none_iff_exists'.mp hne2 with ⟨a, ha⟩
    exact ⟨a, ha, List.mem_of_find?_eq_some ha, by simpa using List.find?_some ha⟩
  have hmem_merged : ∀ m ∈ mergeSchedule insts (computeAutoSchedule insts level),
      m ∈ computeAutoSchedule insts level := by
    intro m hm
    rw [hmerge] at hm
    rcases List.mem_map.mp hm with ⟨i, hi, rfl⟩
    rcases hpick i hi with ⟨s, hf, hsmem, hsid⟩
    rw [hf]
    exact hsmem
  have hids_merged : (mergeSchedule insts (computeAutoSchedule insts level)).map
      (fun i => i.id) = insts.map (fun i => i.id) := by
    rw [hmerge, List.map_map]
    refine List.map_congr_left (fun i hi => ?_)
    rcases hpick i hi with ⟨s, hf, _, hsid⟩
    simp only [Function.comp_apply, hf]
    exact hsid
  have hnodup_merged : ((mergeSchedule insts (computeAutoSchedule insts level)).map
      (fun i => i.id)).Nodup := by
    rw [hids_merged]
    exact hids
  have hplaced_merged : ∀ m ∈ mergeSchedule insts (computeAutoSchedule insts level),
      0 ≤ m.cycle := by
    intro m hm
    rcases hfinalInv.pmap_val m (hmem_merged m hm) with ⟨c, hc, _⟩
    rw [hc]
    exact Int.ofNat_nonneg c
  have hmergedne : mergeSchedule insts (computeAutoSchedule insts level) ≠ [] := by
    rw [hmerge]
    intro h
    exact hne (List.map_eq_nil_iff.mp h)
  rcases List.exists_mem_of_ne_nil _ hmergedne with ⟨m0, hm0⟩
  have hpsne : placedSorted (mergeSchedule insts (computeAutoSchedule insts level))
      ≠ [] := placedSorted_ne_nil hm0 (hplaced_merged m0 hm0)
  have hhaz : simHazards (mergeSchedule insts (computeAutoSchedule insts level))
      level = [] := by
    unfold simHazards
    rw [List.flatMap_eq_nil_iff]
    intro m hmps
    rcases mem_placedSorted.mp hmps with ⟨hmmem, hmcyc⟩
    have hmsched := hmem_merged m hmmem
    have h1 : unitHazards level m = [] := by
      rcases hfinalInv.sched_unit m hmsched with ⟨e, he, hek⟩
      unfold unitHazards
      rw [he]
      exact if_neg (fun hne2 => hne2 hek)
    have h2 : ∀ d ∈ m.dependencies,
        depHazards (mergeSchedule insts (computeAutoSchedule insts level)) m d
          = [] := by
      intro d hd
      rcases hfinalInv.sched_deps m hmsched d hd with ⟨t, ht, htid, htle⟩
      have htmem : t ∈ mergeSchedule insts (computeAutoSchedule insts level) := by
        rcases hfinalInv.sched_src t ht with ⟨i1, hi1S, htid2, _, _, _⟩
        rcases List.mem_map.mp hi1S with ⟨j, hj, rfl⟩
        rcases hpick j hj with ⟨s, hf, hsmem, hsid⟩
        have hts : s = t :=
          List.inj_on_of_nodup_map hfinalInv.sched_nodup hsmem ht
            (by rw [hsid, htid2]; rfl)
        rw [hmerge]
        refine List.mem_map.mpr ⟨j, hj, ?_⟩
        rw [hf]
        exact hts
      have hfind : (mergeSchedule insts
          (computeAutoSchedule insts level)).find? (fun x => x.id == d) = some t := by
        have hx := find?_id_of_nodup hnodup_merged htmem
        rw [htid] at hx
        exact hx
      rcases hfinalInv.pmap_val t ht with ⟨ct, htc, _⟩
      unfold depHazards
      simp only [hfind]
      rw [if_neg (by rw [htc]; omega), if_neg (Int.not_lt.mpr htle)]
    have h3 : structuralHazards
        (placedSorted (mergeSchedule insts (computeAutoSchedule insts level))) m
          = [] := by
      unfold structuralHazards
      rcases hf : (placedSorted (mergeSchedule insts
          (computeAutoSchedule insts level))).find? (fun other =>
            !(other.id == m.id) && other.unitIndex == m.unitIndex
              && other.cycle == m.cycle) with _ | o
      · rw [hf]
      · exfalso
        have hpo := List.find?_some hf
        have hom := List.mem_of_find?_eq_some hf
        simp only [Bool.and_eq_true, Bool.not_eq_true', beq_iff_eq,
          beq_eq_false_iff_ne] at hpo
        rcases mem_placedSorted.mp hom with ⟨homerged, _⟩
        have hosched := hmem_merged o homerged
        have honeq : o ≠ m := fun he => hpo.1.1 (by rw [he])
        have hsymm : Symmetric (fun a b : GameInstruction =>
            ¬(a.unitIndex = b.unitIndex ∧ a.cycle = b.cycle)) :=
          fun a b h hp => h ⟨hp.1.symm, hp.2.symm⟩
        exact (hfinalInv.sched_pairs.forall hsymm) hosched hmsched honeq
          ⟨hpo.1.2, hpo.2⟩
    unfold instHazards
    rw [h1, List.flatMap_eq_nil_iff.mpr h2, h3]
    rfl
  have hall : allPlaced (mergeSchedule insts (computeAutoSchedule insts level))
      = true := by
    unfold allPlaced
    rw [List.all_eq_true]
    intro i hi
    simpa using hplaced_merged i hi
  refine ⟨hplace, hplaced_merged, ?_, ?_⟩
  · rw [simulation_of_placed_ne_nil hpsne]
    exact hhaz
  · rw [simulation_valid_eq hpsne, hall, hhaz]
    rfl

/-! ### Witnesses -/

theorem C2_witness :
    (simulation (mergeSchedule level1.instructions
      (computeAutoSchedule level1.instructions level1)) level1).valid = true :=
  (C2_feasible_autoschedule level1.instructions level1 level1Rank
    (by decide) (by decide) (by decide) (by decide) (by decide)).2.2.2

theorem C3_witness :
    (simulation level1Auto level1).score
      = max 0 (1000 - 10 * (simulation level1Auto level1).totalCycles) :=
  (C3_validator_result_shape level1Auto level1 (simulation level1Auto level1)
    rfl).2.2.2.1 (by decide)

theorem C4_witness :
    ∃ h ∈ (simulation c4Insts c4Level).hazards,
      h.instructionId = c4Add.id ∧ h.type = HazardType.RAW :=
  C4_raw_dependency_hazards.1 c4Insts c4Level c4Add c4Load "1"
    (by decide) (by decide) (by decide) (by decide) (by decide)

theorem C5_witness :
    ∃ h ∈ (simulation c5ContendInsts c5Level).hazards,
      h.type = HazardType.STRUCTURAL ∧
        (h.instructionId = c5First.id ∨ h.instructionId = c5Second.id) :=
  C5_structural_start_cycle_only.1 c5ContendInsts c5Level c5First c5Second
    (by decide) (by decide) (by decide) (by decide) (by decide) (by decide) (by decide)

theorem C6_witness :
    (0 : Nat) ≤ 0 ∧ (0 : Nat) < 0 + 50 ∧ (0 : Nat) ∈ [0] :=
  C6_bounded_best_effort.2.1 [] [0] 0 0 0 (by decide)

theorem C8_witness :
    simulation (applyPlacements (resetAll level1Auto) (exportPlacements level1Auto))
      level1 = simulation level1Auto level1 :=
  C8_export_replay_roundtrip level1Auto level1 (by decide) (by decide)

theorem C9_witness :
    operationalIntensity c9Insts
      = (totalFlops c9Insts : Rat) / (totalMemOps c9Insts : Rat) :=
  (C9_roofline_metrics c9Insts c9Level).2.2.2.2.2.1 (by decide)

theorem C10_witness : unitHazards c10Level c10Add = [] :=
  C10_out_of_range_unit_skipped.1 c10Level c10Add (by decide)

end KernelFlow
